import Mathlib

/-!
Verification of the IoT ingestion mini-service (TCP sockets, NDJSON framing).

This file is a shallow embedding, in Lean 4, of the core of the repository:

* `src/models.py`   — message contracts (`SensorReading`, `ValidationError`,
  `IngestRequest`, `IngestResponse`);
* `src/validators.py` — the per-reading business validation
  (`validate_single_reading`, `validate_readings`, `VALUE_RANGES`);
* `src/protocol.py` — envelope construction and codec (`build_message`,
  `encode_message`, `decode_message`) and the newline framing reader
  (`recv_line`, `MAX_MESSAGE_SIZE`);
* `src/server.py`   — the per-connection exchange handler (`handle_client`)
  and the accept loop (`run_server`).

Python values decoded from JSON are modelled by the inductive `PyVal`.
Machine floats are modelled by their decimal literal (the shortest
round-tripping decimal representation that `repr` produces and `json`
serializes): constructor `PyVal.float m d` stands for the float whose
literal is the digits of `m` with a decimal point placed before the last
`d` digits.  Exceptions are modelled with `Except PyExn`.  Byte streams
read from a socket are modelled as lists of natural numbers (one per byte),
and the nondeterministic inputs of the code (the fresh UUID, the clock)
are passed as explicit parameters.
-/

/-! ## Python values (the result of `json.loads`) -/

mutual
/-- A Python value of the kinds that can arrive through `json.loads` and be
passed around by the service: `None`, `bool`, `int`, `float`, `str`, `list`
and `dict`.  A float is represented by its decimal literal: `float m d` is
the float written as the digits of `m` with `d` fractional digits (for
example `float 225 1` is `22.5`); every Python float that `repr` prints in
plain decimal form is denoted by exactly one such well-formed literal. -/
inductive PyVal : Type where
  | null : PyVal
  | boolean : Bool → PyVal
  | int : Int → PyVal
  | float : Int → Nat → PyVal
  | str : String → PyVal
  | arr : PyItems → PyVal
  | obj : PyFields → PyVal

/-- The elements of a Python `list` value. -/
inductive PyItems : Type where
  | nil : PyItems
  | cons : PyVal → PyItems → PyItems

/-- The key/value bindings of a Python `dict` value, in insertion order. -/
inductive PyFields : Type where
  | nil : PyFields
  | cons : String → PyVal → PyFields → PyFields
end

/-- The numeric value of a float literal: `float m d` denotes `m / 10 ^ d`. -/
def floatVal (m : Int) (d : Nat) : ℚ := mkRat m (10 ^ d)

/-- Python truthiness (`bool(v)`) for the values of `PyVal`: `None`, `False`,
numeric zero, and empty strings/lists/dicts are falsy, everything else is
truthy. -/
def pyTruthy : PyVal → Bool
  | .null => false
  | .boolean b => b
  | .int n => n != 0
  | .float m _ => m != 0
  | .str s => s != ""
  | .arr .nil => false
  | .arr (.cons _ _) => true
  | .obj .nil => false
  | .obj (.cons _ _ _) => true

/-- `dict` key lookup as performed by a `dict` built by `json.loads`: when a
key occurs several times in the serialized object, the last binding wins. -/
def PyFields.get? : PyFields → String → Option PyVal
  | .nil, _ => none
  | .cons k v tl, key =>
    match tl.get? key with
    | some w => some w
    | none => if k = key then some v else none

/-- `d.get(key, default)` on a modelled `dict`. -/
def pyGetD (fs : PyFields) (key : String) (dflt : PyVal) : PyVal :=
  (fs.get? key).getD dflt

/-- The Python exceptions that the code of this repository can raise or
catch.  `valueError` carries `str(e)` (the text used when an `error`
envelope is built from a caught exception). -/
inductive PyExn : Type where
  | valueError : String → PyExn
  | keyError : PyExn
  | typeError : PyExn
  | attributeError : PyExn
  | osError : PyExn
  | timeoutError : PyExn
deriving DecidableEq

/-! ## Characters used by the codec -/

/-- The double-quote character. -/
def quoteC : Char := Char.ofNat 34

/-- The backslash character. -/
def backslashC : Char := Char.ofNat 92

/-- The opening curly-brace character. -/
def lbraceC : Char := Char.ofNat 123

/-- The closing curly-brace character. -/
def rbraceC : Char := Char.ofNat 125

/-- The characters stripped by Python's `str.strip()` with no argument
(restricted to the ASCII whitespace the protocol can actually carry). -/
def isPySpace (c : Char) : Bool :=
  c = ' ' || c = '\t' || c = '\n' || c = '\r' || c = Char.ofNat 11 || c = Char.ofNat 12

/-- `str.strip()` on a list of characters: drop whitespace at both ends. -/
def pyStrip (l : List Char) : List Char :=
  ((l.dropWhile isPySpace).reverse.dropWhile isPySpace).reverse

/-- `str.strip()` on a `String`. -/
def pyStripStr (s : String) : String := String.mk (pyStrip s.data)

/-! ## Decimal digits -/

/-- The decimal digits of a natural number, most significant first
(`"0"` for zero). -/
def natDigits (n : Nat) : List Char :=
  if n = 0 then ['0'] else ((Nat.digits 10 n).map Nat.digitChar).reverse

/-- The numeric value of a decimal digit character. -/
def digitVal (c : Char) : Nat := c.toNat - 48

/-- The natural number denoted by a list of decimal digit characters. -/
def digitsToNat (ds : List Char) : Nat :=
  ds.foldl (fun a c => 10 * a + digitVal c) 0

/-- The decimal rendering of an integer, with a leading minus sign when
negative (this is `str(n)`/`json.dumps(n)` for a Python `int`). -/
def intDigits (n : Int) : List Char :=
  (if n < 0 then ['-'] else []) ++ natDigits n.natAbs

/-- The fractional digits of a float literal, left-padded with zeros to
width `d`. -/
def padDigits (d : Nat) (r : Nat) : List Char :=
  List.replicate (d - (natDigits r).length) '0' ++ natDigits r

/-- The decimal text of the float literal `m`/`d` — sign, integer digits,
point, `d` fractional digits — exactly the form `repr`/`json.dumps` write
for a plain-decimal Python float. -/
def serFloat (m : Int) (d : Nat) : List Char :=
  (if m < 0 then ['-'] else []) ++
    natDigits (m.natAbs / 10 ^ d) ++ '.' :: padDigits d (m.natAbs % 10 ^ d)

/-! ## Textual renderings used in diagnostics

The validation error messages of `validators.py` interpolate `repr(value)`,
`str(value)` and type names into French diagnostic strings.  The renderings
below model `repr`/`str`/`type(...).__name__` for the values that can occur;
string `repr` is modelled without Python's quote-selection and escaping
subtleties (no claim of the specification depends on the diagnostic text).
-/

mutual
/-- Model of Python `repr` for a decoded JSON value. -/
def pyRepr : PyVal → String
  | .null => "None"
  | .boolean true => "True"
  | .boolean false => "False"
  | .int n => String.mk (intDigits n)
  | .float m d => String.mk (serFloat m d)
  | .str s => "'" ++ s ++ "'"
  | .arr xs => "[" ++ pyReprItems xs ++ "]"
  | .obj fs => String.mk [lbraceC] ++ pyReprFields fs ++ String.mk [rbraceC]

/-- `repr` of list elements, comma-separated. -/
def pyReprItems : PyItems → String
  | .nil => ""
  | .cons v .nil => pyRepr v
  | .cons v tl => pyRepr v ++ ", " ++ pyReprItems tl

/-- `repr` of dict bindings, comma-separated. -/
def pyReprFields : PyFields → String
  | .nil => ""
  | .cons k v .nil => "'" ++ k ++ "': " ++ pyRepr v
  | .cons k v tl => "'" ++ k ++ "': " ++ pyRepr v ++ ", " ++ pyReprFields tl
end

/-- Model of Python `str` for a decoded JSON value (differs from `repr`
only on strings). -/
def pyStr : PyVal → String
  | .str s => s
  | v => pyRepr v

/-- Model of `type(v).__name__` for a decoded JSON value. -/
def pyTypeName : PyVal → String
  | .null => "NoneType"
  | .boolean _ => "bool"
  | .int _ => "int"
  | .float _ _ => "float"
  | .str _ => "str"
  | .arr _ => "list"
  | .obj _ => "dict"

/-! ## `models.py` — the message contracts -/

/-- `SensorReading` (src/models.py): one measurement.  The dataclass
annotations promise `str`/`float` fields but Python does not enforce them —
`from_dict` stores whatever JSON values arrived — so every field is a
`PyVal` (absent optional fields are `None`). -/
structure SensorReading : Type where
  sensor_id : PyVal
  type : PyVal
  value : PyVal
  unit : PyVal
  timestamp : PyVal
  pump_status : PyVal
  irrigation_mm : PyVal

/-- `SensorReading.from_dict` (src/models.py): read each field with
`d.get(...)` and its default.  Calling `.get` on a value that is not a
`dict` raises `AttributeError`. -/
def SensorReading.from_dict : PyVal → Except PyExn SensorReading
  | .obj fs =>
    .ok { sensor_id := pyGetD fs "sensor_id" (.str "")
          type := pyGetD fs "type" (.str "")
          value := pyGetD fs "value" .null
          unit := pyGetD fs "unit" (.str "")
          timestamp := pyGetD fs "timestamp" (.str "")
          pump_status := pyGetD fs "pump_status" .null
          irrigation_mm := pyGetD fs "irrigation_mm" .null }
  | _ => .error .attributeError

/-- `ValidationError` (src/models.py): one validation diagnostic.
`sensor_id` holds the display identifier `reading.sensor_id or "(vide)"`
(always a string on every path that constructs an error). -/
structure ValidationError : Type where
  sensor_id : String
  field : String
  message : String
deriving DecidableEq

/-- `IngestRequest` (src/models.py): a source tag and the readings. -/
structure IngestRequest : Type where
  source : PyVal
  readings : List SensorReading

/-- Map `SensorReading.from_dict` over the elements of a list value. -/
def readingsOfItems : PyItems → Except PyExn (List SensorReading)
  | .nil => .ok []
  | .cons v tl => do
    let r ← SensorReading.from_dict v
    let rs ← readingsOfItems tl
    .ok (r :: rs)

/-- Iterating `d.get("readings", [])` in `IngestRequest.from_dict`:
a list is mapped through `SensorReading.from_dict`; iterating a non-empty
string or dict yields strings on which `.get` raises `AttributeError`;
numbers, booleans and `None` are not iterable (`TypeError`). -/
def readingsOfVal : PyVal → Except PyExn (List SensorReading)
  | .arr xs => readingsOfItems xs
  | .str s => if s = "" then .ok [] else .error .attributeError
  | .obj .nil => .ok []
  | .obj (.cons _ _ _) => .error .attributeError
  | .null => .error .typeError
  | .boolean _ => .error .typeError
  | .int _ => .error .typeError
  | .float _ _ => .error .typeError

/-- `IngestRequest.from_dict` (src/models.py). -/
def IngestRequest.from_dict : PyVal → Except PyExn IngestRequest
  | .obj fs => do
    let rs ← readingsOfVal (pyGetD fs "readings" (.arr .nil))
    .ok { source := pyGetD fs "source" (.str ""), readings := rs }
  | _ => .error .attributeError

/-! ## `validators.py` — the validation engine -/

/-- `VALUE_RANGES` (src/validators.py): the fixed table of acceptable
`[min, max]` ranges per sensor type. -/
def VALUE_RANGES (t : String) : Option (ℚ × ℚ) :=
  if t = "temperature" then some (-50, 60)
  else if t = "humidity" then some (0, 100)
  else if t = "rainfall" then some (0, 500)
  else if t = "irrigation" then some (0, 200)
  else if t = "wind_speed" then some (0, 300)
  else none

/-- `VALUE_RANGES.get(reading.type)`: looking a value up in a dict with
string keys.  Unhashable keys (lists, dicts) raise `TypeError`; any other
non-string key simply misses. -/
def rangesGet : PyVal → Except PyExn (Option (ℚ × ℚ))
  | .str t => .ok (VALUE_RANGES t)
  | .arr _ => .error .typeError
  | .obj _ => .error .typeError
  | _ => .ok none

/-- The numeric value of a reading's `value` field when
`isinstance(value, (int, float))` holds — note that Python booleans are
instances of `int`, `True` counting as `1` and `False` as `0`; `none` when
the field is not numeric. -/
def numVal? : PyVal → Option ℚ
  | .int n => some (n : ℚ)
  | .float m d => some (floatVal m d)
  | .boolean b => some (if b then 1 else 0)
  | _ => none

/-- The `sensor_id` presence check of `validate_single_reading`, together
with the display identifier `sid = reading.sensor_id or "(vide)"` used by
all subsequent diagnostics.  `not reading.sensor_id` is truthiness; when
the id is truthy, `reading.sensor_id.strip()` is called, which raises
`AttributeError` on a non-string. -/
def checkSid (sid : PyVal) : Except PyExn (String × List ValidationError) :=
    if pyTruthy sid = false then
      .ok ("(vide)",
        [{ sensor_id := "(vide)", field := "sensor_id",
           message := "Le sensor_id est obligatoire et ne peut être vide" }])
    else
      match sid with
      | .str s =>
        .ok (s,
          if pyStripStr s = "" then
            [{ sensor_id := s, field := "sensor_id",
               message := "Le sensor_id est obligatoire et ne peut être vide" }]
          else [])
      | _ => .error .attributeError

/-- The range check of `validate_single_reading`, reached only for numeric
values: look the type up in `VALUE_RANGES`; when a range is found and the
value is not within `[min, max]` inclusive, emit an error on field
`value`. -/
def rangeCheck (sidS : String) (v : PyVal) (q : ℚ) (ty : PyVal) :
    Except PyExn (List ValidationError) :=
  match rangesGet ty with
  | .error e => .error e
  | .ok (some (mn, mx)) =>
    .ok (if mn ≤ q ∧ q ≤ mx then []
      else
        [{ sensor_id := sidS, field := "value",
           message := "Valeur " ++ pyStr v ++ " hors plage [" ++ toString mn
             ++ ", " ++ toString mx ++ "] pour type=" ++ pyStr ty }])
  | .ok none => .ok []

/-- The value check of `validate_single_reading`: a non-numeric value gets
exactly one error on field `value` and skips the range check; a numeric
value (including booleans) goes to the range check. -/
def checkValue (sidS : String) (v : PyVal) (ty : PyVal) :
    Except PyExn (List ValidationError) :=
  match numVal? v with
  | none =>
    .ok [{ sensor_id := sidS, field := "value",
           message := "Valeur non numérique : " ++ pyRepr v
             ++ " (type=" ++ pyTypeName v ++ ")" }]
  | some q => rangeCheck sidS v q ty

/-- Number of days in a month of the Gregorian calendar (with leap
years), needed by the `datetime.fromisoformat` model. -/
def daysInMonth (y m : Nat) : Nat :=
  if m = 2 then
    if y % 4 = 0 && (y % 100 != 0 || y % 400 = 0) then 29 else 28
  else if m = 4 || m = 6 || m = 9 || m = 11 then 30
  else 31

/-- The optional seconds part `:SS[.digits]` of an ISO time. -/
def isoSeconds : List Char → Bool
  | ':' :: s1 :: s2 :: rest =>
    s1.isDigit && s2.isDigit && digitVal s1 * 10 + digitVal s2 < 60 &&
      (match rest with
       | [] => true
       | '.' :: fs => fs ≠ [] && fs.all (·.isDigit)
       | _ => false)
  | _ => false

/-- The time part `HH:MM[:SS[.digits]]` of an ISO date-time, preceded by a
single separator character. -/
def isoTime : List Char → Bool
  | _ :: h1 :: h2 :: ':' :: n1 :: n2 :: rest =>
    h1.isDigit && h2.isDigit && n1.isDigit && n2.isDigit &&
      digitVal h1 * 10 + digitVal h2 < 24 &&
      digitVal n1 * 10 + digitVal n2 < 60 &&
      (rest = [] || isoSeconds rest)
  | _ => false

/-- Model of `datetime.fromisoformat` succeeding (src/validators.py calls
it for the timestamp check), restricted to the extended format
`YYYY-MM-DD[<sep>HH:MM[:SS[.ffffff]]]` that this service's data uses: a
calendar-valid date, optionally followed by a single separator character
and a valid time. -/
def isIsoDatetime (s : String) : Bool :=
  match s.data with
  | y1 :: y2 :: y3 :: y4 :: '-' :: m1 :: m2 :: '-' :: d1 :: d2 :: rest =>
    y1.isDigit && y2.isDigit && y3.isDigit && y4.isDigit &&
      m1.isDigit && m2.isDigit && d1.isDigit && d2.isDigit &&
      (let y := ((digitVal y1 * 10 + digitVal y2) * 10 + digitVal y3) * 10 + digitVal y4
       let m := digitVal m1 * 10 + digitVal m2
       let d := digitVal d1 * 10 + digitVal d2
       1 ≤ m && m ≤ 12 && 1 ≤ d && d ≤ daysInMonth y m) &&
      (rest = [] || isoTime rest)
  | _ => false

/-- The timestamp check of `validate_single_reading`: both a string that
`fromisoformat` rejects (`ValueError`) and a non-string argument
(`TypeError`) are caught and turned into an error on field `timestamp`. -/
def checkTimestamp (sidS : String) (ts : PyVal) : List ValidationError :=
  match ts with
  | .str s =>
    if isIsoDatetime s then []
    else
      [{ sensor_id := sidS, field := "timestamp",
         message := "Timestamp invalide : " ++ pyRepr (.str s) }]
  | v =>
    [{ sensor_id := sidS, field := "timestamp",
       message := "Timestamp invalide : " ++ pyRepr v }]

/-- Python's `v > 0` on a reading's `irrigation_mm` field: numbers (and
booleans) compare; any other operand raises `TypeError`. -/
def pyGtZero : PyVal → Except PyExn Bool
  | .int n => .ok (0 < n)
  | .float m _ => .ok (0 < m)
  | .boolean b => .ok b
  | _ => .error .typeError

/-- Python's `v == "OFF"`: true exactly for the string `"OFF"` (equality
with a string never raises). -/
def isOFF : PyVal → Bool
  | .str s => s == "OFF"
  | _ => false

/-- The pump/irrigation consistency check of `validate_single_reading`:
`pump_status == "OFF" and irrigation_mm is not None and irrigation_mm > 0`
(left-to-right, short-circuiting). -/
def checkPump (sidS : String) (ps irr : PyVal) : Except PyExn (List ValidationError) :=
  if isOFF ps then
    match irr with
    | .null => .ok []
    | v =>
      match pyGtZero v with
      | .error e => .error e
      | .ok g =>
        .ok (if g then
          [{ sensor_id := sidS, field := "pump_status",
             message := "pump_status=OFF mais irrigation_mm=" ++ pyStr v ++ " > 0" }]
        else [])
  else .ok []

/-- `validate_single_reading` (src/validators.py): apply the four checks in
source order and return the concatenated error list; an uncaught Python
exception inside a check aborts the whole validation. -/
def validate_single_reading (r : SensorReading) : Except PyExn (List ValidationError) :=
  match checkSid r.sensor_id with
  | .error e => .error e
  | .ok (sidS, e1) =>
    match checkValue sidS r.value r.type with
    | .error e => .error e
    | .ok e2 =>
      match checkPump sidS r.pump_status r.irrigation_mm with
      | .error e => .error e
      | .ok e4 => .ok (e1 ++ e2 ++ checkTimestamp sidS r.timestamp ++ e4)

/-- `validate_readings` (src/validators.py): validate in input order; a
reading with no errors is appended to `accepted`, otherwise all its errors
are appended to `all_errors`. -/
def validate_readings : List SensorReading →
    Except PyExn (List SensorReading × List ValidationError)
  | [] => .ok ([], [])
  | r :: rs =>
    match validate_single_reading r with
    | .error e => .error e
    | .ok errs =>
      match validate_readings rs with
      | .error e => .error e
      | .ok (acc, all) =>
        if errs = [] then .ok (r :: acc, all) else .ok (acc, errs ++ all)

/-- The pair `(accepted_count, rejected_count)` that `handle_client`
(src/server.py, lines 57–67) puts into the `IngestResponse`:
`len(accepted)` and `len(errors)` where `errors` is the flattened
`all_errors` list returned by `validate_readings`. -/
def ingestionCounts (rs : List SensorReading) : Except PyExn (Nat × Nat) :=
  match validate_readings rs with
  | .error e => .error e
  | .ok (acc, errs) => .ok (acc.length, errs.length)

/-- Whether a single reading validates with no error (the acceptance
criterion of `validate_readings`). -/
def acceptedReading (r : SensorReading) : Bool :=
  match validate_single_reading r with
  | .ok [] => true
  | _ => false

/-- The number of validation errors of one reading (zero when validation
raises). -/
def errCountOf (r : SensorReading) : Nat :=
  match validate_single_reading r with
  | .ok l => l.length
  | .error _ => 0

/-! ## `protocol.py` — envelope codec

`encode_message` is `json.dumps(msg, ensure_ascii=False, separators=(",", ":"))`
followed by one `"\n"`, UTF-8 encoded; `decode_message` strips the line and
parses it with `json.loads`.  The serializer below reproduces the compact
`json.dumps` output character by character; the parser is a model of
`json.loads` restricted to the whitespace-free documents this protocol
carries (it accepts a superset of JSON number tokens, which only widens the
set of accepted inputs).  Both work on `List Char`; the UTF-8 byte encoding
of that text is a bijection and is abstracted away.
-/

/-- `json.dumps` escaping of one character inside a string literal
(`ensure_ascii=False`): backslash, quote and the five short control escapes
get two-character escapes, the remaining control characters get
`\u00XX`, and everything else passes through. -/
def escChar (c : Char) : List Char :=
  if c = backslashC then [backslashC, backslashC]
  else if c = quoteC then [backslashC, quoteC]
  else if c = Char.ofNat 8 then [backslashC, 'b']
  else if c = Char.ofNat 12 then [backslashC, 'f']
  else if c = '\n' then [backslashC, 'n']
  else if c = '\r' then [backslashC, 'r']
  else if c = '\t' then [backslashC, 't']
  else if c.toNat < 32 then
    [backslashC, 'u', '0', '0', Nat.digitChar (c.toNat / 16), Nat.digitChar (c.toNat % 16)]
  else [c]

/-- Escape every character of a string body. -/
def escList : List Char → List Char
  | [] => []
  | c :: cs => escChar c ++ escList cs

/-- A JSON string literal: quote, escaped body, quote. -/
def serStr (s : String) : List Char :=
  quoteC :: escList s.data ++ [quoteC]

mutual
/-- Compact JSON serialization of a value, as `json.dumps` with
`separators=(",", ":")` writes it. -/
def serVal : PyVal → List Char
  | .null => ['n', 'u', 'l', 'l']
  | .boolean true => ['t', 'r', 'u', 'e']
  | .boolean false => ['f', 'a', 'l', 's', 'e']
  | .int n => intDigits n
  | .float m d => serFloat m d
  | .str s => serStr s
  | .arr xs => '[' :: serItems xs ++ [']']
  | .obj fs => lbraceC :: serFields fs ++ [rbraceC]

/-- Comma-separated serialization of list elements. -/
def serItems : PyItems → List Char
  | .nil => []
  | .cons v .nil => serVal v
  | .cons v tl => serVal v ++ ',' :: serItems tl

/-- Comma-separated serialization of dict bindings (`"key":value`). -/
def serFields : PyFields → List Char
  | .nil => []
  | .cons k v .nil => serStr k ++ ':' :: serVal v
  | .cons k v tl => serStr k ++ ':' :: serVal v ++ ',' :: serFields tl
end

/-- Whether a character is a hexadecimal digit. -/
def isHex (c : Char) : Bool :=
  c.isDigit || ('a' ≤ c && c ≤ 'f') || ('A' ≤ c && c ≤ 'F')

/-- The value of a hexadecimal digit character. -/
def hexVal (c : Char) : Nat :=
  if c.isDigit then c.toNat - 48
  else if 'a' ≤ c && c ≤ 'f' then c.toNat - 87
  else c.toNat - 55

/-- The character denoted by a two-character JSON escape. -/
def unescChar (c : Char) : Option Char :=
  if c = quoteC then some quoteC
  else if c = backslashC then some backslashC
  else if c = '/' then some '/'
  else if c = 'b' then some (Char.ofNat 8)
  else if c = 'f' then some (Char.ofNat 12)
  else if c = 'n' then some '\n'
  else if c = 'r' then some '\r'
  else if c = 't' then some '\t'
  else none

/-- Parse the body of a JSON string literal after its opening quote,
returning the decoded characters and the input after the closing quote. -/
def parseStrBody : List Char → Option (List Char × List Char)
  | [] => none
  | c :: r =>
    if c = quoteC then some ([], r)
    else if c = backslashC then
      match r with
      | 'u' :: h1 :: h2 :: h3 :: h4 :: r2 =>
        if isHex h1 && isHex h2 && isHex h3 && isHex h4 then
          match parseStrBody r2 with
          | some (cs, rest) =>
            some (Char.ofNat (((hexVal h1 * 16 + hexVal h2) * 16 + hexVal h3) * 16
              + hexVal h4) :: cs, rest)
          | none => none
        else none
      | e :: r2 =>
        (match unescChar e with
         | some c2 =>
           match parseStrBody r2 with
           | some (cs, rest) => some (c2 :: cs, rest)
           | none => none
         | none => none)
      | [] => none
    else
      match parseStrBody r with
      | some (cs, rest) => some (c :: cs, rest)
      | none => none

/-- Split the longest prefix of decimal digits. -/
def spanDigits (s : List Char) : List Char × List Char := s.span (·.isDigit)

/-- Attach an optional leading minus sign to a magnitude. -/
def applyNeg (neg : Bool) (n : Nat) : Int :=
  if neg then -(n : Int) else (n : Int)

/-- Parse the digits of a JSON number token after the optional sign:
integer digits, then an optional fractional part.  An integer literal
yields `PyVal.int`; a literal with a fractional part yields the float with
exactly those fractional digits. -/
def parseNumCore (neg : Bool) (s1 : List Char) : Option (PyVal × List Char) :=
  if (spanDigits s1).1 = [] then none
  else
    match (spanDigits s1).2 with
    | '.' :: r2 =>
      if (spanDigits r2).1 = [] then none
      else
        some (.float (applyNeg neg (digitsToNat (spanDigits s1).1 * 10 ^ (spanDigits r2).1.length
          + digitsToNat (spanDigits r2).1)) (spanDigits r2).1.length, (spanDigits r2).2)
    | r1 => some (.int (applyNeg neg (digitsToNat (spanDigits s1).1)), r1)

/-- Parse a JSON number token: optional leading minus sign, then digits. -/
def parseNum (s : List Char) : Option (PyVal × List Char) :=
  match s with
  | '-' :: r => parseNumCore true r
  | r => parseNumCore false r

mutual
/-- Fueled recursive-descent parser for one compact JSON value; the fuel
only bounds nesting and every call site supplies enough of it. -/
def parseVal : Nat → List Char → Option (PyVal × List Char)
  | 0, _ => none
  | Nat.succ f, s =>
    match s with
    | [] => none
    | c :: r =>
      if c = quoteC then
        match parseStrBody r with
        | some (cs, rest) => some (.str (String.mk cs), rest)
        | none => none
      else if c = '[' then
        match r with
        | ']' :: rest => some (.arr .nil, rest)
        | _ =>
          match parseItems f r with
          | some (xs, rest) => some (.arr xs, rest)
          | none => none
      else if c = lbraceC then
        match r with
        | [] => none
        | c2 :: rest =>
          if c2 = rbraceC then some (.obj .nil, rest)
          else
            match parseFields f r with
            | some (fs, rest2) => some (.obj fs, rest2)
            | none => none
      else if c = 't' then
        match r with
        | 'r' :: 'u' :: 'e' :: rest => some (.boolean true, rest)
        | _ => none
      else if c = 'f' then
        match r with
        | 'a' :: 'l' :: 's' :: 'e' :: rest => some (.boolean false, rest)
        | _ => none
      else if c = 'n' then
        match r with
        | 'u' :: 'l' :: 'l' :: rest => some (.null, rest)
        | _ => none
      else parseNum (c :: r)

/-- Parse the comma-separated elements of a non-empty array up to and
including the closing bracket. -/
def parseItems : Nat → List Char → Option (PyItems × List Char)
  | 0, _ => none
  | Nat.succ f, s =>
    match parseVal f s with
    | some (v, r) =>
      (match r with
       | ',' :: r2 =>
         match parseItems f r2 with
         | some (vs, rest) => some (.cons v vs, rest)
         | none => none
       | ']' :: r2 => some (.cons v .nil, r2)
       | _ => none)
    | none => none

/-- Parse the comma-separated bindings of a non-empty object up to and
including the closing brace. -/
def parseFields : Nat → List Char → Option (PyFields × List Char)
  | 0, _ => none
  | Nat.succ f, s =>
    match s with
    | [] => none
    | c :: r =>
      if c = quoteC then
        match parseStrBody r with
        | some (ks, r1) =>
          (match r1 with
           | ':' :: r2 =>
             match parseVal f r2 with
             | some (v, r3) =>
               (match r3 with
                | ',' :: r4 =>
                  match parseFields f r4 with
                  | some (fs, rest) => some (.cons (String.mk ks) v fs, rest)
                  | none => none
                | c4 :: r4 =>
                  if c4 = rbraceC then some (.cons (String.mk ks) v .nil, r4)
                  else none
                | [] => none)
             | none => none
           | _ => none)
        | none => none
      else none
end

mutual
/-- Well-formedness of a modelled Python value: every float literal has at
least one fractional digit, as `repr` of an actual Python float always
does. -/
def PyVal.wf : PyVal → Bool
  | .float _ d => decide (1 ≤ d)
  | .arr xs => PyItems.wf xs
  | .obj fs => PyFields.wf fs
  | _ => true

/-- Well-formedness of list elements. -/
def PyItems.wf : PyItems → Bool
  | .nil => true
  | .cons v tl => PyVal.wf v && PyItems.wf tl

/-- Well-formedness of dict bindings. -/
def PyFields.wf : PyFields → Bool
  | .nil => true
  | .cons _ v tl => PyVal.wf v && PyFields.wf tl
end

mutual
/-- Nesting measure of a value, used to bound the parser fuel. -/
def sizeV : PyVal → Nat
  | .arr xs => 1 + sizeI xs
  | .obj fs => 1 + sizeF fs
  | _ => 1

/-- Nesting measure of list elements. -/
def sizeI : PyItems → Nat
  | .nil => 1
  | .cons v tl => 1 + max (sizeV v) (sizeI tl)

/-- Nesting measure of dict bindings. -/
def sizeF : PyFields → Nat
  | .nil => 1
  | .cons _ v tl => 1 + max (sizeV v) (sizeF tl)
end

/-- `PROTOCOL_VERSION` (src/protocol.py). -/
def PROTOCOL_VERSION : String := "v1"

/-- `MAX_MESSAGE_SIZE` (src/protocol.py): 1 MiB. -/
def MAX_MESSAGE_SIZE : Nat := 1048576

/-- `build_message` (src/protocol.py) with the `request_id` argument as the
arbitrary value the callers may pass: the envelope keeps the supplied id
when it is truthy and otherwise substitutes `str(uuid.uuid4())`, which is
passed here explicitly as `uuid`, as is the `datetime.now().isoformat()`
timestamp `now`. -/
def buildMessageVal (msg_type : String) (payload : PyVal) (request_id : PyVal)
    (uuid now : String) : PyVal :=
  .obj (.cons "version" (.str PROTOCOL_VERSION)
    (.cons "type" (.str msg_type)
      (.cons "request_id" (if pyTruthy request_id then request_id else .str uuid)
        (.cons "sent_at" (.str now)
          (.cons "payload" payload .nil)))))

/-- `build_message` (src/protocol.py) at its annotated type
`request_id: str | None = None`; `request_id or str(uuid.uuid4())` falls
back to the fresh uuid both for `None` and for a falsy (empty) string. -/
def build_message (msg_type : String) (payload : PyVal) (request_id : Option String)
    (uuid now : String) : PyVal :=
  buildMessageVal msg_type payload
    (match request_id with | some s => .str s | none => .null) uuid now

/-- `encode_message` (src/protocol.py): compact one-line JSON plus a single
trailing newline (the UTF-8 text of the bytes put on the wire). -/
def encode_message (msg : PyVal) : String :=
  String.mk (serVal msg ++ ['\n'])

/-- `decode_message` (src/protocol.py): strip the line, fail with
`ValueError("Message vide")` when nothing remains, otherwise `json.loads`
it (a parse failure is a `json.JSONDecodeError`, a subclass of
`ValueError`; its exact diagnostic text is abbreviated here). -/
def decode_message (raw : String) : Except PyExn PyVal :=
  let s := pyStrip raw.data
  if s = [] then .error (.valueError "Message vide")
  else
    match parseVal (s.length + 1) s with
    | some (j, []) => .ok j
    | _ => .error (.valueError "Expecting value")

/-! ## `protocol.py` — framing reader -/

/-- The outcome of one `recv_line` call (src/protocol.py): a complete line
(its bytes, newline removed), a closed connection (`None`), or the
`ValueError` raised when the buffer exceeds `max_size`. -/
inductive RecvResult : Type where
  | line : List Nat → RecvResult
  | closed : RecvResult
  | tooLarge : RecvResult
deriving DecidableEq

/-- `recv_line` (src/protocol.py).  The socket is modelled by the list of
chunks that successive `conn.recv(4096)` calls return; an exhausted list or
an empty chunk is a read of zero bytes (peer closed).  The loop scans the
buffer for a newline, returns the bytes before it (consuming them), else
appends the next chunk and fails if the buffer then exceeds `max_size`; at
end of stream a non-empty buffer is returned as a final line.  Returns the
result with the remaining buffer and chunks. -/
def recv_line (buffer : List Nat) : List (List Nat) → Nat →
    RecvResult × List Nat × List (List Nat)
  | [], _ =>
    match buffer.findIdx? (· = 10) with
    | some p => (.line (buffer.take p), buffer.drop (p + 1), [])
    | none => if buffer = [] then (.closed, [], []) else (.line buffer, [], [])
  | c :: rest, max_size =>
    match buffer.findIdx? (· = 10) with
    | some p => (.line (buffer.take p), buffer.drop (p + 1), c :: rest)
    | none =>
      if c = [] then
        if buffer = [] then (.closed, [], rest) else (.line buffer, [], rest)
      else
        if max_size < (buffer ++ c).length then (.tooLarge, buffer ++ c, rest)
        else recv_line (buffer ++ c) rest max_size

/-- Total number of bytes in a list of chunks. -/
def totalLen (chunks : List (List Nat)) : Nat := (chunks.map List.length).sum

/-- Fueled driver that calls `recv_line` until the connection closes or the
size limit trips: the sequence of extracted lines, with a flag telling
whether the size-limit error ended the stream.  The fuel only bounds the
number of lines and `readAll` supplies enough of it. -/
def readAllF : Nat → List Nat → List (List Nat) → Nat → List (List Nat) × Bool
  | 0, _, _, _ => ([], false)
  | Nat.succ fu, buffer, chunks, max_size =>
    match recv_line buffer chunks max_size with
    | (.line l, b2, c2) =>
      let p := readAllF fu b2 c2 max_size
      (l :: p.1, p.2)
    | (.closed, _, _) => ([], false)
    | (.tooLarge, _, _) => ([], true)

/-- All lines a connection delivers: drive `recv_line` to completion (one
line consumes at least one buffered byte, so the byte count bounds the
number of lines). -/
def readAll (buffer : List Nat) (chunks : List (List Nat)) (max_size : Nat) :
    List (List Nat) × Bool :=
  readAllF (buffer.length + totalLen chunks + 1) buffer chunks max_size

/-- The newline-splitting specification of a byte stream: the maximal
newline-free segments, a trailing unterminated fragment included when
non-empty. -/
def linesSpec : List Nat → List (List Nat)
  | [] => []
  | b :: rest =>
    if b = 10 then [] :: linesSpec rest
    else
      match linesSpec rest with
      | [] => [[b]]
      | l :: ls => (b :: l) :: ls

/-! ## `server.py` — exchange handler and accept loop -/

/-- What one exchange delivers to the peer at the handler level: silence,
exactly one response envelope, or a Python exception escaping
`handle_client`. -/
inductive HandlerOutcome : Type where
  | noResponse : HandlerOutcome
  | response : PyVal → HandlerOutcome
  | uncaught : PyExn → HandlerOutcome

/-- The framing result as `handle_client` sees it, the line bytes decoded
to text. -/
inductive RecvOutcome : Type where
  | closed : RecvOutcome
  | tooLarge : RecvOutcome
  | line : String → RecvOutcome

/-- Lift a `recv_line` result to the handler level through a model `u` of
`bytes.decode("utf-8")`. -/
def recvOutcomeOf (u : List Nat → String) : RecvResult → RecvOutcome
  | .line bs => .line (u bs)
  | .closed => .closed
  | .tooLarge => .tooLarge

/-- The `ValueError` text raised by `recv_line` on an oversized message. -/
def tooLargeMsg (max_size : Nat) : String :=
  "Message trop volumineux (> " ++ toString max_size ++ " octets)"

/-- An `error`-type envelope as `handle_client` builds it from a message
and the current `request_id`. -/
def errorResponse (m : String) (rid : PyVal) (uuid now : String) : PyVal :=
  buildMessageVal "error" (.obj (.cons "message" (.str m) .nil)) rid uuid now

/-- `handle_client`'s exception dispatch once `request_id` holds `rid`:
`socket.timeout` and `OSError` are logged and answered with nothing;
`ValueError`/`KeyError` get an `error` envelope carrying `str(e)`; every
other exception (notably `AttributeError` and `TypeError`) is caught by no
clause and escapes. -/
def exnOutcome (rid : PyVal) (uuid now : String) : PyExn → HandlerOutcome
  | .timeoutError => .noResponse
  | .osError => .noResponse
  | .valueError m => .response (errorResponse m rid uuid now)
  | .keyError => .response (errorResponse "" rid uuid now)
  | .typeError => .uncaught .typeError
  | .attributeError => .uncaught .attributeError

/-- `msg_type != "ingest_request"` is false exactly for that string. -/
def isIngestRequestType : PyVal → Bool
  | .str t => t == "ingest_request"
  | _ => false

/-- The `errors` list of an `IngestResponse.to_dict()`. -/
def errItems : List ValidationError → PyItems
  | [] => .nil
  | e :: tl =>
    .cons (.obj (.cons "sensor_id" (.str e.sensor_id)
      (.cons "field" (.str e.field)
        (.cons "message" (.str e.message) .nil)))) (errItems tl)

/-- `IngestResponse.to_dict()` (src/models.py) as `handle_client` fills it:
`request_id` is whatever value the request carried, the counts are
`len(accepted)` and `len(errors)`, and `processing_time_ms` is the measured
elapsed time, passed in as `elapsed` since the model has no clock. -/
def responseDict (rid : PyVal) (acceptedCount rejectedCount : Nat)
    (errs : List ValidationError) (elapsed : PyVal) : PyVal :=
  .obj (.cons "request_id" rid
    (.cons "accepted_count" (.int acceptedCount)
      (.cons "rejected_count" (.int rejectedCount)
        (.cons "errors" (.arr (errItems errs))
          (.cons "processing_time_ms" elapsed .nil)))))

/-- `handle_client` (src/server.py) downstream of the framing read,
parameterized by the line decoder `dec` (instantiated with
`decode_message`) so that one can state that some failure paths never
invoke any JSON parsing.  `uuid`, `now` and `elapsed` stand for the fresh
request ids, clock readings and measured duration. -/
def handleClientCore (dec : String → Except PyExn PyVal) (rcv : RecvOutcome)
    (uuid now : String) (elapsed : PyVal) (max_size : Nat) : HandlerOutcome :=
  match rcv with
  | .closed => .noResponse
  | .tooLarge => .response (errorResponse (tooLargeMsg max_size) (.str "unknown") uuid now)
  | .line l =>
    match dec l with
    | .error e => exnOutcome (.str "unknown") uuid now e
    | .ok msg =>
      match msg with
      | .obj fs =>
        let rid := pyGetD fs "request_id" (.str "unknown")
        let mtype := pyGetD fs "type" (.str "")
        if isIngestRequestType mtype = false then
          .response (errorResponse ("Type non supporté : " ++ pyStr mtype) rid uuid now)
        else
          match IngestRequest.from_dict (pyGetD fs "payload" (.obj .nil)) with
          | .error e => exnOutcome rid uuid now e
          | .ok req =>
            match validate_readings req.readings with
            | .error e => exnOutcome rid uuid now e
            | .ok (acc, errs) =>
              .response (buildMessageVal "ingest_response"
                (responseDict rid acc.length errs.length errs elapsed) rid uuid now)
      | _ => .uncaught .attributeError

/-- `handle_client` with the real line decoder and size limit. -/
def handle_client (rcv : RecvOutcome) (uuid now : String) (elapsed : PyVal) :
    HandlerOutcome :=
  handleClientCore decode_message rcv uuid now elapsed MAX_MESSAGE_SIZE

/-- `run_server`'s accept loop (src/server.py lines 95–113) wraps each
`handle_client` call in `try … except KeyboardInterrupt … except OSError`:
it keeps listening after an `OSError`, but any other exception escaping the
handler propagates and terminates the loop. -/
def acceptLoopSurvives : HandlerOutcome → Bool
  | .uncaught .osError => true
  | .uncaught _ => false
  | _ => true

/-! ## Auxiliary definitions used by the statements below -/

/-- The error list of a reading whose validation completes. -/
def errorsOf (r : SensorReading) : List ValidationError :=
  match validate_single_reading r with
  | .ok l => l
  | .error _ => []

/-- Whether the first character of the remaining input can extend a number
token (the only token whose parse looks past the serialized value). -/
def headSafe : List Char → Bool
  | [] => true
  | c :: _ => !(c.isDigit || c = '.')

/-- Input-safety of a serialized value followed by `rest`: only number
tokens constrain what may follow. -/
def numSafe : PyVal → List Char → Bool
  | .int _, rest => headSafe rest
  | .float _ _, rest => headSafe rest
  | _, _ => true

/-- A fully valid reading (scenario A of the specification's tests). -/
def rGood : SensorReading :=
  { sensor_id := .str "t01", type := .str "temperature", value := .float 220 1,
    unit := .str "°C", timestamp := .str "2026-02-23T10:00:00",
    pump_status := .null, irrigation_mm := .null }

/-- A reading accumulating two validation errors: blank `sensor_id` and a
non-numeric `value`. -/
def rMulti : SensorReading :=
  { sensor_id := .str "", type := .str "temperature", value := .str "x",
    unit := .str "u", timestamp := .str "2026-02-23T10:00:00",
    pump_status := .null, irrigation_mm := .null }

/-- A reading whose only flaw is a non-numeric `value`. -/
def rNonNum : SensorReading :=
  { sensor_id := .str "t03", type := .str "temperature", value := .str "oops",
    unit := .str "u", timestamp := .str "2026-02-23T10:00:00",
    pump_status := .null, irrigation_mm := .null }

/-- A reading with a numeric `value` far below the `temperature` range
(scenario B of the specification's tests). -/
def rRange : SensorReading :=
  { sensor_id := .str "t02", type := .str "temperature", value := .float (-9990) 1,
    unit := .str "°C", timestamp := .str "2026-02-23T10:00:00",
    pump_status := .null, irrigation_mm := .null }

/-- A reading whose `value` is the boolean `true`. -/
def rBool : SensorReading :=
  { sensor_id := .str "t05", type := .str "temperature", value := .boolean true,
    unit := .str "u", timestamp := .str "2026-02-23T10:00:00",
    pump_status := .null, irrigation_mm := .null }

/-- A sample payload for the round-trip witness. -/
def payloadW : PyVal := .obj (.cons "status" (.str "alive") .nil)

/-- 524289 chunks of the two-byte message `"a\n"`: each message is far
below the default size limit, but the whole stream is 1048578 bytes. -/
def c6chunks : List (List Nat) := List.replicate 524289 [97, 10]



/-- The number of `value`-field errors a completed validation must report
for a given `value` and `type` pair: one for a non-numeric value, otherwise
the verdict of the range table. -/
def expectedValueCount (v ty : PyVal) : Nat :=
  match numVal? v with
  | none => 1
  | some q =>
    match rangesGet ty with
    | .ok (some p) => if p.1 ≤ q ∧ q ≤ p.2 then 0 else 1
    | _ => 0

/-- The `request_id` field of a protocol message object. -/
def requestIdOf (msg : PyVal) : Option PyVal :=
  match msg with
  | .obj fs => fs.get? "request_id"
  | _ => none

/-! ## Lemmas about the validation engine -/

/-- The `sensor_id` check contributes no error on field `value`. -/
theorem countValue_sid (sid : PyVal) (sidS : String) (l : List ValidationError)
    (h : checkSid sid = .ok (sidS, l)) : l.countP (fun e => e.field == "value") = 0 := by
  unfold checkSid at h
  split at h
  · cases h
    rfl
  · split at h
    · cases h
      split
      · rfl
      · rfl
    · cases h

/-- The timestamp check contributes no error on field `value`. -/
theorem countValue_ts (sidS : String) (ts : PyVal) :
    (checkTimestamp sidS ts).countP (fun e => e.field == "value") = 0 := by
  unfold checkTimestamp
  split
  · split
    · rfl
    · rfl
  · rfl

/-- The pump consistency check contributes no error on field `value`. -/
theorem countValue_pump (sidS : String) (ps irr : PyVal) (l : List ValidationError)
    (h : checkPump sidS ps irr = .ok l) : l.countP (fun e => e.field == "value") = 0 := by
  unfold checkPump at h
  split at h
  · split at h
    · cases h
      rfl
    · cases hg : pyGtZero irr with
      | error e => rw [hg] at h; cases h
      | ok g =>
        rw [hg] at h
        cases h
        split
        · rfl
        · rfl
  · cases h
    rfl

/-- The `value`-field error count produced by the value check. -/
theorem countValue_value (sidS : String) (v ty : PyVal) (l : List ValidationError)
    (h : checkValue sidS v ty = .ok l) :
    l.countP (fun e => e.field == "value") = expectedValueCount v ty := by
  unfold checkValue at h
  cases hv : numVal? v with
  | none =>
    rw [hv] at h
    cases h
    simp only [expectedValueCount, hv]
    rfl
  | some q =>
    rw [hv] at h
    unfold rangeCheck at h
    cases hr : rangesGet ty with
    | error e => rw [hr] at h; cases h
    | ok rng =>
      rw [hr] at h
      cases rng with
      | none =>
        cases h
        simp only [expectedValueCount, hv, hr]
        rfl
      | some p =>
        obtain ⟨mn, mx⟩ := p
        cases h
        simp only [expectedValueCount, hv, hr]
        split
        · rfl
        · rfl

/-- The `value`-field error count of a completed single-reading
validation: everything claims C3, C4 and C9 need about field `value`. -/
theorem countValue_of_ok (r : SensorReading) (res : List ValidationError)
    (h : validate_single_reading r = .ok res) :
    res.countP (fun e => e.field == "value") = expectedValueCount r.value r.type := by
  unfold validate_single_reading at h
  split at h
  · cases h
  · rename_i sidS e1 hs
    split at h
    · cases h
    · rename_i e2 hv
      split at h
      · cases h
      · rename_i e4 hp
        cases h
        rw [List.countP_append, List.countP_append, List.countP_append]
        rw [countValue_sid _ _ _ hs, countValue_ts sidS r.timestamp,
          countValue_pump _ _ _ _ hp, countValue_value _ _ _ _ hv]
        omega

/-! ## Claims C3, C4, C9 — value validation -/

/-- C3: for every reading whose `value` is not a number, a completed
`validate_single_reading` reports exactly one error with field `value`
(the numeric-ness error), and the range check adds nothing, whatever the
reading's `type`. -/
theorem c3_nonnumeric_value_single_error (r : SensorReading) (res : List ValidationError)
    (h : validate_single_reading r = .ok res) (hn : numVal? r.value = none) :
    res.countP (fun e => e.field == "value") = 1 := by
  rw [countValue_of_ok r res h]
  simp only [expectedValueCount, hn]

/-- Witness for C3 at the concrete reading `rNonNum`. -/
theorem c3_nonnumeric_value_single_error_witness :
    (errorsOf rNonNum).countP (fun e => e.field == "value") = 1 :=
  c3_nonnumeric_value_single_error rNonNum (errorsOf rNonNum) rfl rfl

/-- C4: for every reading with a numeric `value` (of numeric value `q`)
whose validation completes, when the reading's `type` has a range
`[mn, mx]` in the fixed table there is exactly one `value`-field error
precisely when `q` lies strictly below `mn` or strictly above `mx` (the
boundaries themselves are accepted); when the `type` has no range in the
table, no `value`-field error is emitted whatever `q` is. -/
theorem c4_range_check_iff (r : SensorReading) (res : List ValidationError) (q : ℚ)
    (h : validate_single_reading r = .ok res) (hq : numVal? r.value = some q) :
    (∀ mn mx : ℚ, rangesGet r.type = .ok (some (mn, mx)) →
      (res.countP (fun e => e.field == "value") = 1 ↔ (q < mn ∨ mx < q))) ∧
    (rangesGet r.type = .ok none →
      res.countP (fun e => e.field == "value") = 0) := by
  have hc := countValue_of_ok r res h
  constructor
  · intro mn mx hr
    rw [hc]
    simp only [expectedValueCount, hq, hr]
    constructor
    · intro h1
      split at h1
      · exact absurd h1 (by norm_num)
      · rename_i hin
        rw [not_and_or, not_le, not_le] at hin
        exact hin
    · intro h2
      rw [if_neg]
      intro hin
      rcases h2 with h2 | h2
      · exact absurd hin.1 (not_le.mpr h2)
      · exact absurd hin.2 (not_le.mpr h2)
  · intro hr
    rw [hc]
    simp only [expectedValueCount, hq, hr]

/-- Witness for C4 at the concrete out-of-range reading `rRange`. -/
theorem c4_range_check_iff_witness :
    (errorsOf rRange).countP (fun e => e.field == "value") = 1 := by
  have hq : numVal? rRange.value = some (-999 : ℚ) := by decide
  have h := (c4_range_check_iff rRange (errorsOf rRange) (-999) rfl hq).1 (-50) 60 rfl
  exact h.mpr (Or.inl (by norm_num))

/-- C9 (implicit): a reading whose `value` is a JSON boolean passes the
numeric-ness check — `isinstance(True, int)` holds in Python — and is
range-checked with `true` counting as `1` and `false` as `0`; in
particular a `temperature` reading with value `true` gets no `value`-field
error at all. -/
theorem c9_bool_value_numeric (r : SensorReading) (res : List ValidationError) (b : Bool)
    (hb : r.value = .boolean b) (h : validate_single_reading r = .ok res) :
    numVal? r.value = some (if b then (1 : ℚ) else 0) ∧
    res.countP (fun e => e.field == "value") =
      expectedValueCount (.boolean b) r.type ∧
    (r.type = .str "temperature" →
      res.countP (fun e => e.field == "value") = 0) := by
  have hq : numVal? r.value = some (if b then (1 : ℚ) else 0) := by rw [hb]; rfl
  refine ⟨hq, ?_, ?_⟩
  · rw [countValue_of_ok r res h, hb]
  · intro ht
    rw [countValue_of_ok r res h, hb, ht]
    have hr : rangesGet (.str "temperature") = .ok (some ((-50 : ℚ), 60)) := rfl
    simp only [expectedValueCount, numVal?, hr]
    rw [if_pos]
    cases b
    · exact ⟨by norm_num, by norm_num⟩
    · exact ⟨by norm_num, by norm_num⟩

/-- Witness for C9 at the concrete boolean-valued reading `rBool`. -/
theorem c9_bool_value_numeric_witness :
    (errorsOf rBool).countP (fun e => e.field == "value") = 0 :=
  (c9_bool_value_numeric rBool (errorsOf rBool) true rfl rfl).2.2 rfl

/-! ## Claim C1 — response counts -/

/-- C1 (amended): for every batch whose validation completes,
`accepted_count` is the number of readings with zero validation errors,
while `rejected_count` is the total number of validation errors across the
batch (`len(errors)` of the flattened error list) — it equals the number of
rejected readings only when each rejected reading has exactly one error. -/
theorem c1_amended_counts (rs : List SensorReading) (acc : List SensorReading)
    (errs : List ValidationError) (h : validate_readings rs = .ok (acc, errs)) :
    acc.length = rs.countP acceptedReading ∧
    errs.length = (rs.map errCountOf).sum := by
  induction rs generalizing acc errs with
  | nil =>
    unfold validate_readings at h
    cases h
    simp
  | cons r tl ih =>
    unfold validate_readings at h
    split at h
    · cases h
    · rename_i el hv
      split at h
      · cases h
      · rename_i acc2 all2 ht
        obtain ⟨ih1, ih2⟩ := ih acc2 all2 ht
        have ha : acceptedReading r = decide (el = []) := by
          unfold acceptedReading
          rw [hv]
          cases el with
          | nil => rfl
          | cons e etl => simp
        have hc : errCountOf r = el.length := by
          unfold errCountOf
          rw [hv]
        by_cases he : el = []
        · rw [if_pos he] at h
          cases h
          subst he
          constructor
          · simp [List.countP_cons, ha, ih1]
          · simpa [hc] using ih2
        · rw [if_neg he] at h
          cases h
          constructor
          · simp [List.countP_cons, ha, he, ih1]
          · simp [List.length_append, List.map_cons, List.sum_cons, hc, ih2]

/-- Witness for the amended C1 at the concrete one-reading batch
`[rGood]`, which validates with one accepted reading and no error. -/
theorem c1_amended_counts_witness :
    (1 : Nat) = ([rGood] : List SensorReading).countP acceptedReading ∧
    (0 : Nat) = (([rGood] : List SensorReading).map errCountOf).sum :=
  c1_amended_counts [rGood] [rGood] [] (by rfl)

/-- Counterexample to C1 as stated: the one-reading batch `[rMulti]`
(blank `sensor_id` and non-numeric `value`) yields two validation errors,
so the response carries `accepted_count = 0` and `rejected_count = 2`,
although only one reading was rejected: `rejected_count` is not the number
of rejected readings, and `accepted_count + rejected_count = 2` differs
from the batch size `1`. -/
theorem c1_counterexample :
    ingestionCounts [rMulti] = .ok (0, 2) ∧
    ([rMulti] : List SensorReading).length = 1 ∧
    ([rMulti] : List SensorReading).countP (fun r => !(acceptedReading r)) = 1 ∧
    0 + 2 ≠ 1 := by
  refine ⟨rfl, rfl, rfl, by norm_num⟩

/-! ## Claim C10 — request id substitution -/

/-- C10 (implicit): `request_id or str(uuid.uuid4())` in `build_message`
substitutes the freshly generated uuid not only for an absent (`None`)
`request_id` but also for a supplied empty string, which is falsy; since a
uuid string is never empty, no built message carries an empty
`request_id`. -/
theorem c10_empty_request_id_replaced (msg_type : String) (payload : PyVal)
    (request_id : Option String) (uuid now : String) (hu : uuid ≠ "") :
    requestIdOf (build_message msg_type payload request_id uuid now)
      = some (.str (match request_id with
        | some s => if s = "" then uuid else s
        | none => uuid)) ∧
    (request_id = some "" →
      requestIdOf (build_message msg_type payload request_id uuid now)
        = some (.str uuid)) ∧
    (∀ s, requestIdOf (build_message msg_type payload request_id uuid now)
        = some (.str s) → s ≠ "") := by
  have h1 : requestIdOf (build_message msg_type payload request_id uuid now)
      = some (.str (match request_id with
        | some s => if s = "" then uuid else s
        | none => uuid)) := by
    cases request_id with
    | none => rfl
    | some s =>
      by_cases hs : s = ""
      · subst hs
        rfl
      · have ht : pyTruthy (.str s) = true := by
          simp [pyTruthy, hs]
        simp only [build_message, buildMessageVal, requestIdOf, ht, if_true,
          PyFields.get?, if_neg hs]
        rfl
  refine ⟨h1, ?_, ?_⟩
  · intro he
    subst he
    exact h1
  · intro s hs
    rw [h1] at hs
    simp only [Option.some.injEq, PyVal.str.injEq] at hs
    subst hs
    cases request_id with
    | none => exact hu
    | some t =>
      by_cases ht : t = ""
      · simp only [ht, if_pos rfl]
        exact hu
      · simp only [ht, if_neg ht]
        exact ht

/-- Witness for C10: a supplied empty `request_id` is replaced by the
fresh uuid. -/
theorem c10_empty_request_id_replaced_witness :
    requestIdOf (build_message "ping" PyVal.null (some "") "u1" "t0")
      = some (.str "u1") :=
  (c10_empty_request_id_replaced "ping" PyVal.null (some "") "u1" "t0"
    (by decide)).2.1 rfl

/-! ## Claim C8 — end of stream -/

/-- C8: when the peer has closed the connection (modelled by exhausted
chunks) and the buffer holds no newline, `recv_line` returns the buffered
unterminated remainder as a final line and leaves the buffer empty when
the buffer is non-empty, and signals end of stream (`None`) exactly when
the buffer is empty.  (Lines are modelled as the byte sequences that
`handle_client` then decodes as UTF-8.) -/
theorem c8_eof_remainder (buffer : List Nat) (max_size : Nat)
    (h : buffer.findIdx? (· = 10) = none) :
    (buffer = [] → recv_line buffer [] max_size = (.closed, [], [])) ∧
    (buffer ≠ [] → recv_line buffer [] max_size = (.line buffer, [], [])) := by
  constructor
  · intro hb
    unfold recv_line
    rw [h, if_pos hb]
  · intro hb
    unfold recv_line
    rw [h, if_neg hb]

/-- Witness for C8 at the concrete unterminated buffer `[104, 105]`. -/
theorem c8_eof_remainder_witness :
    recv_line [104, 105] [] 1048576 = (.line [104, 105], [], []) :=
  (c8_eof_remainder [104, 105] 1048576 (by rfl)).2 (by simp)

/-! ## Claim C2 — handler safety (refuted: uncaught exception) -/

/-- C2 is violated by the code: the incoming line `"42"` is valid JSON but
not an object, so `decode_message` succeeds with the integer `42` and
`msg.get("request_id", "unknown")` raises `AttributeError`; `handle_client`
catches only `socket.timeout`, `ValueError`/`KeyError` and `OSError`, so
the exception escapes the handler, and `run_server`'s accept loop, which
catches only `KeyboardInterrupt` and `OSError`, terminates. -/
theorem c2_nonobject_line_crashes_loop :
    handle_client (.line "42") "u" "t0" PyVal.null = .uncaught .attributeError ∧
    acceptLoopSurvives (handle_client (.line "42") "u" "t0" PyVal.null) = false := by
  constructor
  · rfl
  · rfl

/-! ## Lemmas about the framing reader -/

/-- The byte total of a chunk list is the length of its concatenation. -/
theorem totalLen_eq_length_flatten (chunks : List (List Nat)) :
    totalLen chunks = chunks.flatten.length := by
  simp [totalLen]

/-- A found index is within bounds. -/
theorem findIdxQ_lt_length {l : List Nat} {p : Nat → Bool} {j : Nat}
    (h : l.findIdx? p = some j) : j < l.length := by
  rw [List.findIdx?_eq_some_iff_findIdx_eq] at h
  exact h.1

/-- A search failing on a concatenation fails on both parts. -/
theorem findIdxQ_none_of_append {l1 l2 : List Nat} {p : Nat → Bool}
    (h : (l1 ++ l2).findIdx? p = none) :
    l1.findIdx? p = none ∧ l2.findIdx? p = none := by
  rw [List.findIdx?_eq_none_iff] at h
  constructor
  · rw [List.findIdx?_eq_none_iff]
    intro x hx
    exact h x (List.mem_append_left _ hx)
  · rw [List.findIdx?_eq_none_iff]
    intro x hx
    exact h x (List.mem_append_right _ hx)

/-- When the buffer already holds a newline, `recv_line` returns at once
without touching the socket. -/
theorem recv_line_found_buffer (buffer : List Nat) (chunks : List (List Nat))
    (max_size j : Nat) (h : buffer.findIdx? (· = 10) = some j) :
    recv_line buffer chunks max_size =
      (.line (buffer.take j), buffer.drop (j + 1), chunks) := by
  cases chunks with
  | nil =>
    unfold recv_line
    rw [h]
  | cons c rest =>
    unfold recv_line
    rw [h]

/-- `recv_line` when the byte stream contains a newline (at first position
`j`) and the whole stream fits in the size limit: the bytes before the
newline are returned, and the leftover state concatenates back to the
stream after the newline. -/
theorem recv_line_found (chunks : List (List Nat)) :
    ∀ (buffer : List Nat) (max_size j : Nat),
    (buffer ++ chunks.flatten).findIdx? (· = 10) = some j →
    (buffer ++ chunks.flatten).length ≤ max_size →
    (∀ c ∈ chunks, c ≠ []) →
    ∃ b2 c2, recv_line buffer chunks max_size =
        (.line ((buffer ++ chunks.flatten).take j), b2, c2) ∧
      b2 ++ c2.flatten = (buffer ++ chunks.flatten).drop (j + 1) ∧
      (∀ c ∈ c2, c ≠ []) := by
  induction chunks with
  | nil =>
    intro buffer max_size j h1 h2 h3
    simp only [List.flatten_nil, List.append_nil] at h1 ⊢
    refine ⟨buffer.drop (j + 1), [], ?_, by simp, by simp⟩
    unfold recv_line
    rw [h1]
  | cons c rest ih =>
    intro buffer max_size j h1 h2 h3
    cases hb : buffer.findIdx? (· = 10) with
    | some q =>
      have hq : q < buffer.length := findIdxQ_lt_length hb
      have hjq : j = q := by
        rw [List.findIdx?_append, hb, Option.or_some] at h1
        exact (Option.some.inj h1).symm
      subst hjq
      rw [recv_line_found_buffer _ _ _ _ hb]
      refine ⟨buffer.drop (j + 1), c :: rest, ?_, ?_, h3⟩
      · rw [List.take_append_of_le_length (Nat.le_of_lt hq)]
      · rw [List.drop_append_of_le_length hq]
    | none =>
      have hc : c ≠ [] := h3 c (by simp)
      have hsz : ¬ max_size < (buffer ++ c).length := by
        rw [Nat.not_lt]
        refine Nat.le_trans ?_ h2
        simp only [List.length_append, List.flatten_cons]
        omega
      have step : recv_line buffer (c :: rest) max_size =
          recv_line (buffer ++ c) rest max_size := by
        conv_lhs => unfold recv_line
        simp only [hb, if_neg hc, if_neg hsz]
      rw [step]
      rw [List.flatten_cons, ← List.append_assoc] at h1 h2 ⊢
      exact ih (buffer ++ c) max_size j h1 h2 (fun x hx => h3 x (List.mem_cons_of_mem _ hx))

/-- `recv_line` when the stream holds no newline at all and fits in the
size limit: the peer's close is observed, and either the whole stream comes
back as a final unterminated line or end of stream is signalled. -/
theorem recv_line_eof (chunks : List (List Nat)) :
    ∀ (buffer : List Nat) (max_size : Nat),
    (buffer ++ chunks.flatten).findIdx? (· = 10) = none →
    (buffer ++ chunks.flatten).length ≤ max_size →
    (∀ c ∈ chunks, c ≠ []) →
    recv_line buffer chunks max_size =
      (if buffer ++ chunks.flatten = [] then .closed
        else .line (buffer ++ chunks.flatten), [], []) := by
  induction chunks with
  | nil =>
    intro buffer max_size h1 h2 h3
    simp only [List.flatten_nil, List.append_nil] at h1 ⊢
    unfold recv_line
    rw [h1]
    by_cases hb : buffer = []
    · rw [if_pos hb, if_pos hb]
    · rw [if_neg hb, if_neg hb]
  | cons c rest ih =>
    intro buffer max_size h1 h2 h3
    have hb : buffer.findIdx? (· = 10) = none := (findIdxQ_none_of_append h1).1
    have hc : c ≠ [] := h3 c (by simp)
    have hsz : ¬ max_size < (buffer ++ c).length := by
      rw [Nat.not_lt]
      refine Nat.le_trans ?_ h2
      simp only [List.length_append, List.flatten_cons]
      omega
    have step : recv_line buffer (c :: rest) max_size =
        recv_line (buffer ++ c) rest max_size := by
      conv_lhs => unfold recv_line
      simp only [hb, if_neg hc, if_neg hsz]
    rw [step]
    rw [List.flatten_cons, ← List.append_assoc] at h1 h2 ⊢
    exact ih (buffer ++ c) max_size h1 h2 (fun x hx => h3 x (List.mem_cons_of_mem _ hx))

/-- Driving an exhausted connection yields no line, whatever the fuel. -/
theorem readAllF_empty (fuel max_size : Nat) :
    readAllF fuel [] [] max_size = ([], false) := by
  cases fuel with
  | zero => rfl
  | succ fu => rfl

/-- `linesSpec` of a newline-free stream: the whole stream as one final
fragment when non-empty. -/
theorem linesSpec_none (s : List Nat) (h : s.findIdx? (· = 10) = none) :
    linesSpec s = if s = [] then [] else [s] := by
  induction s with
  | nil => rfl
  | cons b rest ih =>
    rw [List.findIdx?_cons] at h
    split at h
    · simp at h
    · rename_i hb
      simp only [List.findIdx?_start_succ, Option.map_eq_none'] at h
      have hb2 : ¬ b = 10 := by simpa using hb
      unfold linesSpec
      rw [if_neg hb2, ih h]
      by_cases hr : rest = []
      · subst hr
        simp
      · simp [hr]

/-- `linesSpec` splits at the first newline. -/
theorem linesSpec_found (s : List Nat) :
    ∀ j, s.findIdx? (· = 10) = some j →
    linesSpec s = s.take j :: linesSpec (s.drop (j + 1)) := by
  induction s with
  | nil => intro j h; simp at h
  | cons b rest ih =>
    intro j h
    rw [List.findIdx?_cons] at h
    split at h
    · rename_i hb
      have hj : j = 0 := (Option.some.inj h).symm
      subst hj
      have hb2 : b = 10 := by simpa using hb
      conv_lhs => unfold linesSpec
      rw [if_pos hb2]
      simp
    · rename_i hb
      simp only [List.findIdx?_start_succ, Option.map_eq_some'] at h
      obtain ⟨q, hq, hjq⟩ := h
      have hj : j = q + 1 := by omega
      subst hj
      have hb2 : ¬ b = 10 := by simpa using hb
      conv_lhs => unfold linesSpec
      rw [if_neg hb2, ih q hq]
      simp [List.take_succ_cons, List.drop_succ_cons]

/-- Characterization of the line driver: on a stream whose total size fits
in the limit, delivered through non-empty chunks, the reader produces
exactly the newline-split lines of the stream — independently of how the
stream was chunked — and no size error occurs. -/
theorem readAllF_spec (fuel : Nat) :
    ∀ (buffer : List Nat) (chunks : List (List Nat)) (max_size : Nat),
    buffer.length + totalLen chunks < fuel →
    (buffer ++ chunks.flatten).length ≤ max_size →
    (∀ c ∈ chunks, c ≠ []) →
    readAllF fuel buffer chunks max_size =
      (linesSpec (buffer ++ chunks.flatten), false) := by
  induction fuel with
  | zero =>
    intro buffer chunks max_size h1 _ _
    exact absurd h1 (Nat.not_lt_zero _)
  | succ fu ih =>
    intro buffer chunks max_size h1 h2 h3
    have hlen : buffer.length + totalLen chunks = (buffer ++ chunks.flatten).length := by
      rw [totalLen_eq_length_flatten, List.length_append]
    cases hf : (buffer ++ chunks.flatten).findIdx? (· = 10) with
    | some j =>
      obtain ⟨b2, c2, hrec, hjoin, hne⟩ := recv_line_found chunks buffer max_size j hf h2 h3
      have hj : j < (buffer ++ chunks.flatten).length := findIdxQ_lt_length hf
      have hlen2 : b2.length + totalLen c2 = (b2 ++ c2.flatten).length := by
        rw [totalLen_eq_length_flatten, List.length_append]
      have hdrop : (b2 ++ c2.flatten).length =
          (buffer ++ chunks.flatten).length - (j + 1) := by
        rw [hjoin, List.length_drop]
      have hb2 : b2.length + totalLen c2 < fu := by omega
      have hsz2 : (b2 ++ c2.flatten).length ≤ max_size := by omega
      conv_lhs => unfold readAllF
      rw [hrec]
      show (List.take j (buffer ++ chunks.flatten) :: (readAllF fu b2 c2 max_size).1,
          (readAllF fu b2 c2 max_size).2) = (linesSpec (buffer ++ chunks.flatten), false)
      rw [ih b2 c2 max_size hb2 hsz2 hne, linesSpec_found _ j hf, hjoin]
    | none =>
      have hrec := recv_line_eof chunks buffer max_size hf h2 h3
      by_cases hS : buffer ++ chunks.flatten = []
      · rw [if_pos hS] at hrec
        conv_lhs => unfold readAllF
        rw [hrec, hS]
        rfl
      · rw [if_neg hS] at hrec
        conv_lhs => unfold readAllF
        rw [hrec]
        show ((buffer ++ chunks.flatten) :: (readAllF fu [] [] max_size).1,
            (readAllF fu [] [] max_size).2) = (linesSpec (buffer ++ chunks.flatten), false)
        rw [readAllF_empty, linesSpec_none _ hf, if_neg hS]

/-! ## Claim C6 — chunking invariance of framing -/

/-- C6 (amended): for a byte stream whose TOTAL size stays within the size
bound, splitting it into arbitrary (non-empty) chunk boundaries before
feeding it to `recv_line` yields exactly the sequence of newline-split
lines of the stream, with no size error — in particular the same lines, in
the same order, as feeding the stream as one chunk. -/
theorem c6_chunking_invariance_amended (chunks : List (List Nat)) (max_size : Nat)
    (h1 : chunks.flatten.length ≤ max_size) (h2 : ∀ c ∈ chunks, c ≠ []) :
    readAll [] chunks max_size = readAll [] [chunks.flatten] max_size ∧
    readAll [] chunks max_size = (linesSpec chunks.flatten, false) := by
  have hL : readAll [] chunks max_size = (linesSpec chunks.flatten, false) := by
    unfold readAll
    have := readAllF_spec (List.length ([] : List Nat) + totalLen chunks + 1)
      [] chunks max_size (by omega) (by simpa using h1) h2
    simpa using this
  have hR : readAll [] [chunks.flatten] max_size = (linesSpec chunks.flatten, false) := by
    by_cases hj : chunks.flatten = []
    · rw [hj]
      rfl
    · unfold readAll
      have := readAllF_spec (List.length ([] : List Nat) + totalLen [chunks.flatten] + 1)
        [] [chunks.flatten] max_size (by omega) (by simpa using h1) ?_
      · simpa using this
      · intro c hc
        rw [List.mem_singleton] at hc
        subst hc
        exact hj
  exact ⟨hL.trans hR.symm, hL⟩

/-- Witness for the amended C6 at a concrete two-chunk stream. -/
theorem c6_chunking_invariance_amended_witness :
    readAll [] [[97, 10], [98]] 1048576 = readAll [] [[[97, 10], [98]].flatten] 1048576 :=
  (c6_chunking_invariance_amended [[97, 10], [98]] 1048576 (by simp) (by simp)).1

/-- The chunked run over `n` copies of the two-byte message `"a\n"`: every
line is extracted and no size error occurs as long as two bytes fit. -/
theorem readAllF_repl (n : Nat) : ∀ (fu max_size : Nat), 2 * n < fu → 2 ≤ max_size →
    readAllF fu [] (List.replicate n [97, 10]) max_size =
      (List.replicate n [97], false) := by
  induction n with
  | zero =>
    intro fu max_size h1 h2
    cases fu with
    | zero => exact absurd h1 (by omega)
    | succ f => rfl
  | succ m ih =>
    intro fu max_size h1 h2
    cases fu with
    | zero => exact absurd h1 (by omega)
    | succ f =>
      rw [List.replicate_succ]
      have hrec : recv_line [] ([97, 10] :: List.replicate m [97, 10]) max_size =
          (.line [97], [], List.replicate m [97, 10]) := by
        have step : recv_line ([] : List Nat) ([97, 10] :: List.replicate m [97, 10]) max_size =
            recv_line [97, 10] (List.replicate m [97, 10]) max_size := by
          conv_lhs => unfold recv_line
          have hs : ¬ max_size < (([] : List Nat) ++ [97, 10]).length := by
            simp
            omega
          simp only [List.findIdx?_nil, if_neg hs]
          rfl
        rw [step, recv_line_found_buffer [97, 10] _ max_size 1 (by rfl)]
        rfl
      conv_lhs => unfold readAllF
      rw [hrec]
      show ([97] :: (readAllF f [] (List.replicate m [97, 10]) max_size).1,
          (readAllF f [] (List.replicate m [97, 10]) max_size).2) = _
      rw [ih f max_size (by omega) h2]
      rfl

/-- `linesSpec` of `n` copies of `"a\n"` is `n` one-byte lines. -/
theorem linesSpec_repl (n : Nat) :
    linesSpec (List.replicate n [97, 10]).flatten = List.replicate n [97] := by
  induction n with
  | zero => rfl
  | succ m ih =>
    rw [List.replicate_succ, List.flatten_cons, List.replicate_succ]
    show linesSpec (97 :: 10 :: (List.replicate m [97, 10]).flatten) = _
    conv_lhs => unfold linesSpec
    rw [if_neg (by omega)]
    conv_lhs => unfold linesSpec
    rw [if_pos rfl, ih]

/-- A single oversized chunk trips the size limit before any line at all
is produced. -/
theorem readAll_single_overflow (s : List Nat) (max_size : Nat)
    (h1 : s ≠ []) (h2 : max_size < s.length) :
    readAll [] [s] max_size = ([], true) := by
  unfold readAll
  show readAllF (List.length ([] : List Nat) + totalLen [s] + 1) [] [s] max_size = ([], true)
  have hfu : List.length ([] : List Nat) + totalLen [s] + 1 = totalLen [s] + 1 := by simp
  rw [hfu]
  conv_lhs => unfold readAllF
  have hrec : recv_line [] [s] max_size = (.tooLarge, [] ++ s, []) := by
    unfold recv_line
    rw [List.findIdx?_nil]
    rw [if_neg h1, if_pos (by simpa using h2)]
  rw [hrec]

/-- Counterexample to C6 as stated: a stream of 524289 copies of the
two-byte message `"a\n"` — every message far below the 1 MiB bound — is
split into all its lines when it arrives chunked per message, but fed as
one single chunk the 1048578 accumulated bytes exceed `MAX_MESSAGE_SIZE`
and `recv_line` fails with the size error before producing any line, so
the two deliveries do not yield the same line sequence. -/
theorem c6_counterexample :
    linesSpec c6chunks.flatten = List.replicate 524289 [97] ∧
    readAll [] c6chunks 1048576 = (List.replicate 524289 [97], false) ∧
    readAll [] [c6chunks.flatten] 1048576 = ([], true) ∧
    readAll [] c6chunks 1048576 ≠ readAll [] [c6chunks.flatten] 1048576 := by
  have htot : totalLen c6chunks = 1048578 := by
    show totalLen (List.replicate 524289 [97, 10]) = 1048578
    unfold totalLen
    rw [List.map_replicate, List.sum_replicate, smul_eq_mul]
    rfl
  have hlen : c6chunks.flatten.length = 1048578 := by
    rw [← totalLen_eq_length_flatten, htot]
  have h1 : linesSpec c6chunks.flatten = List.replicate 524289 [97] := linesSpec_repl 524289
  have h2 : readAll [] c6chunks 1048576 = (List.replicate 524289 [97], false) := by
    unfold readAll
    exact readAllF_repl 524289 (List.length ([] : List Nat) + totalLen c6chunks + 1)
      1048576 (by omega) (by omega)
  have h3 : readAll [] [c6chunks.flatten] 1048576 = ([], true) := by
    apply readAll_single_overflow
    · intro hc
      rw [hc] at hlen
      simp at hlen
    · omega
  refine ⟨h1, h2, h3, ?_⟩
  rw [h2, h3]
  intro hcontra
  have := congrArg Prod.snd hcontra
  simp at this

/-! ## Claim C7 — size limit trips before parsing -/

/-- `recv_line` fails with the size error whenever some prefix of the
chunks accumulates past `max_size` without a newline having appeared. -/
theorem recv_line_overflow (chunks : List (List Nat)) :
    ∀ (buffer : List Nat) (max_size k : Nat), 1 ≤ k → k ≤ chunks.length →
    (buffer ++ (chunks.take k).flatten).findIdx? (· = 10) = none →
    max_size < (buffer ++ (chunks.take k).flatten).length →
    (∀ c ∈ chunks.take k, c ≠ []) →
    (recv_line buffer chunks max_size).1 = .tooLarge := by
  induction chunks with
  | nil =>
    intro buffer max_size k hk1 hk2 _ _ _
    simp at hk2
    omega
  | cons c rest ih =>
    intro buffer max_size k hk1 hk2 hnl hsz hne
    obtain ⟨k2, rfl⟩ : ∃ k2, k = k2 + 1 := ⟨k - 1, by omega⟩
    rw [List.take_succ_cons] at hnl hsz hne
    rw [List.flatten_cons, ← List.append_assoc] at hnl hsz
    have hbc : (buffer ++ c).findIdx? (· = 10) = none := (findIdxQ_none_of_append hnl).1
    have hb : buffer.findIdx? (· = 10) = none := (findIdxQ_none_of_append hbc).1
    have hc : c ≠ [] := hne c (by simp)
    by_cases hov : max_size < (buffer ++ c).length
    · conv_lhs => unfold recv_line
      simp only [hb, if_neg hc, if_pos hov]
    · have step : recv_line buffer (c :: rest) max_size =
          recv_line (buffer ++ c) rest max_size := by
        conv_lhs => unfold recv_line
        simp only [hb, if_neg hc, if_neg hov]
      rw [step]
      cases Nat.eq_zero_or_pos k2 with
      | inl h0 =>
        subst h0
        rw [List.take_zero, List.flatten_nil, List.append_nil] at hsz
        exact absurd hsz hov
      | inr hpos =>
        refine ih (buffer ++ c) max_size k2 hpos ?_ hnl hsz ?_
        · simp only [List.length_cons] at hk2
          omega
        · intro x hx
          exact hne x (List.mem_cons_of_mem _ hx)

/-- C7: on every input where the accumulated buffer exceeds `max_size`
after an append without a complete line having been returned, `recv_line`
fails with the message-too-large `ValueError` — and this happens before
any JSON parsing of the buffered data: downstream, `handle_client`'s
outcome on that connection is the same whatever line decoder it would have
used. -/
theorem c7_overflow_before_parse (buffer : List Nat) (chunks : List (List Nat))
    (max_size k : Nat) (hk1 : 1 ≤ k) (hk2 : k ≤ chunks.length)
    (hnl : (buffer ++ (chunks.take k).flatten).findIdx? (· = 10) = none)
    (hsz : max_size < (buffer ++ (chunks.take k).flatten).length)
    (hne : ∀ c ∈ chunks.take k, c ≠ []) :
    (recv_line buffer chunks max_size).1 = .tooLarge ∧
    (∀ (u : List Nat → String) (dec dec2 : String → Except PyExn PyVal)
      (uuid now : String) (elapsed : PyVal),
      handleClientCore dec (recvOutcomeOf u (recv_line buffer chunks max_size).1)
          uuid now elapsed max_size
        = handleClientCore dec2 (recvOutcomeOf u (recv_line buffer chunks max_size).1)
          uuid now elapsed max_size) := by
  have h := recv_line_overflow chunks buffer max_size k hk1 hk2 hnl hsz hne
  refine ⟨h, ?_⟩
  intro u dec dec2 uuid now elapsed
  rw [h]
  rfl

/-- Witness for C7 at a concrete three-byte chunk against a two-byte
limit. -/
theorem c7_overflow_before_parse_witness :
    (recv_line [] [[97, 97, 97]] 2).1 = .tooLarge :=
  (c7_overflow_before_parse [] [[97, 97, 97]] 2 1 (by decide) (by decide)
    (by decide) (by decide) (by decide)).1

/-! ## Lemmas about decimal digits -/

/-- `digitChar` of a decimal digit is a digit character of that value. -/
theorem digitChar_spec (d : Nat) (h : d < 10) :
    (Nat.digitChar d).isDigit = true ∧ digitVal (Nat.digitChar d) = d := by
  interval_cases d <;> exact ⟨rfl, rfl⟩

/-- Every character of `natDigits` is a decimal digit. -/
theorem natDigits_all_digit (n : Nat) : ∀ c ∈ natDigits n, c.isDigit = true := by
  intro c hc
  unfold natDigits at hc
  split at hc
  · simp only [List.mem_singleton] at hc
    subst hc
    rfl
  · rw [List.mem_reverse, List.mem_map] at hc
    obtain ⟨d, hd, rfl⟩ := hc
    exact (digitChar_spec d (Nat.digits_lt_base (by norm_num) hd)).1

/-- `natDigits` is never empty. -/
theorem natDigits_ne_nil (n : Nat) : natDigits n ≠ [] := by
  unfold natDigits
  split
  · simp
  · rename_i hn
    simp only [ne_eq, List.reverse_eq_nil_iff, List.map_eq_nil_iff]
    exact Nat.digits_ne_nil_iff_ne_zero.mpr hn

/-- Reading big-endian digit characters back with `digitsToNat` inverts
`Nat.ofDigits` on the little-endian digit list. -/
theorem digitsToNat_map_reverse (L : List Nat) (h : ∀ d ∈ L, d < 10) :
    digitsToNat ((L.map Nat.digitChar).reverse) = Nat.ofDigits 10 L := by
  induction L with
  | nil => rfl
  | cons d tl ih =>
    rw [List.map_cons, List.reverse_cons]
    unfold digitsToNat
    rw [List.foldl_append]
    have htl := ih (fun x hx => h x (List.mem_cons_of_mem _ hx))
    unfold digitsToNat at htl
    rw [htl, Nat.ofDigits_cons]
    simp only [List.foldl_cons, List.foldl_nil]
    rw [(digitChar_spec d (h d (List.mem_cons_self _ _))).2]
    ring

/-- `digitsToNat` inverts `natDigits`. -/
theorem digitsToNat_natDigits (n : Nat) : digitsToNat (natDigits n) = n := by
  unfold natDigits
  split
  · rename_i hn
    subst hn
    rfl
  · rw [digitsToNat_map_reverse _ (fun d hd => Nat.digits_lt_base (by norm_num) hd)]
    exact_mod_cast congrArg id (Nat.ofDigits_digits 10 n) |>.trans rfl

/-- A number below `10 ^ d` has at most `d` digit characters (for a
positive width `d`). -/
theorem natDigits_length_le (r d : Nat) (hd : 1 ≤ d) (hr : r < 10 ^ d) :
    (natDigits r).length ≤ d := by
  unfold natDigits
  split
  · simpa using hd
  · rename_i hr0
    rw [List.length_reverse, List.length_map]
    rw [Nat.digits_len 10 r (by norm_num) hr0]
    have := Nat.log_lt_of_lt_pow hr0 hr
    omega

/-- A head constraint that merely forbids a digit first character. -/
theorem headNotDigit_of_headSafe (rest : List Char) (h : headSafe rest = true) :
    ∀ c cs, rest = c :: cs → c.isDigit = false := by
  intro c cs hrest
  subst hrest
  have h2m : (!(c.isDigit || decide (c = '.'))) = true := h
  cases hdig : c.isDigit
  · rfl
  · rw [hdig] at h2m
    simp at h2m

/-- Splitting digits off a digit prefix stops exactly at the first
non-digit. -/
theorem spanDigits_append (ds rest : List Char) (h1 : ∀ c ∈ ds, c.isDigit = true)
    (h2 : ∀ c cs, rest = c :: cs → c.isDigit = false) :
    spanDigits (ds ++ rest) = (ds, rest) := by
  induction ds with
  | nil =>
    simp only [List.nil_append]
    unfold spanDigits
    cases rest with
    | nil => rfl
    | cons c cs =>
      rw [List.span_eq_take_drop, List.takeWhile_cons, List.dropWhile_cons]
      rw [h2 c cs rfl]
      simp
  | cons c cs ih =>
    have hc : c.isDigit = true := h1 c (List.mem_cons_self _ _)
    have ihr := ih (fun x hx => h1 x (List.mem_cons_of_mem _ hx))
    unfold spanDigits at ihr ⊢
    rw [List.span_eq_take_drop] at ihr ⊢
    rw [List.cons_append, List.takeWhile_cons, List.dropWhile_cons, hc]
    simp only [Prod.mk.injEq] at ihr
    simp [ihr.1, ihr.2]

/-- Leading zeros do not change the value read by `digitsToNat`. -/
theorem digitsToNat_replicate_zero (k : Nat) (l : List Char) :
    digitsToNat (List.replicate k '0' ++ l) = digitsToNat l := by
  induction k with
  | zero => rfl
  | succ m ih =>
    rw [List.replicate_succ, List.cons_append]
    unfold digitsToNat at ih ⊢
    simpa using ih

/-- The padded fractional digits: all digits, width exactly `d`, value
`r`. -/
theorem padDigits_spec (d r : Nat) (hd : 1 ≤ d) (hr : r < 10 ^ d) :
    (∀ c ∈ padDigits d r, c.isDigit = true) ∧
    (padDigits d r).length = d ∧ digitsToNat (padDigits d r) = r := by
  refine ⟨?_, ?_, ?_⟩
  · intro c hc
    unfold padDigits at hc
    rw [List.mem_append] at hc
    cases hc with
    | inl h => rw [List.eq_of_mem_replicate h]; rfl
    | inr h => exact natDigits_all_digit r c h
  · unfold padDigits
    rw [List.length_append, List.length_replicate]
    have := natDigits_length_le r d hd hr
    omega
  · unfold padDigits
    rw [digitsToNat_replicate_zero, digitsToNat_natDigits]

/-! ## Lemmas about number parsing -/

/-- Parsing a bare digit run after the sign yields its integer value. -/
theorem parseNumCore_int (k : Nat) (neg : Bool) (rest : List Char)
    (hr : headSafe rest = true) :
    parseNumCore neg (natDigits k ++ rest) = some (.int (applyNeg neg k), rest) := by
  unfold parseNumCore
  rw [spanDigits_append _ _ (natDigits_all_digit k) (headNotDigit_of_headSafe rest hr)]
  simp only [if_neg (natDigits_ne_nil k), digitsToNat_natDigits]
  cases rest with
  | nil => rfl
  | cons c cs =>
    have hc : c.isDigit = false := headNotDigit_of_headSafe _ hr c cs rfl
    have hdot : ¬ c = '.' := by
      intro h
      have h2m : (!(c.isDigit || decide (c = '.'))) = true := hr
      rw [h] at h2m
      simp at h2m
    split
    · rename_i r2 heq
      injection heq with hch htl
      exact absurd hch hdot
    · rfl

/-- Parsing a digit run, a point and the padded fractional digits yields
the float literal. -/
theorem parseNumCore_float (q r d : Nat) (neg : Bool) (rest : List Char)
    (hd : 1 ≤ d) (hr : r < 10 ^ d) (hrest : headSafe rest = true) :
    parseNumCore neg (natDigits q ++ '.' :: (padDigits d r ++ rest)) =
      some (.float (applyNeg neg (q * 10 ^ d + r)) d, rest) := by
  obtain ⟨hpdig, hplen, hpval⟩ := padDigits_spec d r hd hr
  have hpne : padDigits d r ≠ [] := by
    intro h0
    rw [h0] at hplen
    simp at hplen
    omega
  unfold parseNumCore
  rw [spanDigits_append _ _ (natDigits_all_digit q)
    (by intro c cs h; injection h with h1 _; rw [← h1]; rfl)]
  simp only [if_neg (natDigits_ne_nil q), digitsToNat_natDigits]
  rw [spanDigits_append _ _ hpdig (headNotDigit_of_headSafe rest hrest)]
  simp only [if_neg hpne, hplen, hpval]

/-- The sign dispatch of `parseNum` on a non-dash head. -/
theorem parseNum_no_dash (c : Char) (l : List Char) (hc : ¬ c = '-') :
    parseNum (c :: l) = parseNumCore false (c :: l) := by
  unfold parseNum
  split
  · rename_i r heq
    injection heq with h1 _
    exact absurd h1 hc
  · rfl

/-- `parseNum` inverts the integer serialization. -/
theorem parseNum_intDigits (n : Int) (rest : List Char) (hr : headSafe rest = true) :
    parseNum (intDigits n ++ rest) = some (.int n, rest) := by
  unfold intDigits
  by_cases hn : n < 0
  · rw [if_pos hn]
    show parseNumCore true (natDigits n.natAbs ++ rest) = _
    rw [parseNumCore_int _ _ _ hr]
    have ha : applyNeg true n.natAbs = n := by
      show -(n.natAbs : Int) = n
      omega
    rw [ha]
  · rw [if_neg hn]
    show parseNum (natDigits n.natAbs ++ rest) = _
    obtain ⟨c, cs, hshape⟩ := List.exists_cons_of_ne_nil (natDigits_ne_nil n.natAbs)
    have hcd : c.isDigit = true := by
      apply natDigits_all_digit n.natAbs
      rw [hshape]
      exact List.mem_cons_self _ _
    have hcdash : ¬ c = '-' := by
      intro h
      subst h
      exact absurd hcd (by decide)
    rw [hshape, List.cons_append, parseNum_no_dash c _ hcdash, ← List.cons_append, ← hshape]
    rw [parseNumCore_int _ _ _ hr]
    have ha : applyNeg false n.natAbs = n := by
      show (n.natAbs : Int) = n
      omega
    rw [ha]

/-- `parseNum` inverts the float-literal serialization. -/
theorem parseNum_serFloat (m : Int) (d : Nat) (rest : List Char)
    (hd : 1 ≤ d) (hrest : headSafe rest = true) :
    parseNum (serFloat m d ++ rest) = some (.float m d, rest) := by
  have hmod : m.natAbs % 10 ^ d < 10 ^ d := Nat.mod_lt _ (by positivity)
  have hk : m.natAbs / 10 ^ d * 10 ^ d + m.natAbs % 10 ^ d = m.natAbs := by
    rw [Nat.mul_comm]
    exact Nat.div_add_mod _ _
  unfold serFloat
  by_cases hm : m < 0
  · rw [if_pos hm]
    show parseNumCore true ((natDigits (m.natAbs / 10 ^ d)
      ++ '.' :: padDigits d (m.natAbs % 10 ^ d)) ++ rest) = _
    rw [List.append_assoc, List.cons_append]
    rw [parseNumCore_float _ _ _ _ _ hd hmod hrest]
    rw [hk]
    have ha : applyNeg true m.natAbs = m := by
      show -(m.natAbs : Int) = m
      omega
    rw [ha]
  · rw [if_neg hm]
    show parseNum ((natDigits (m.natAbs / 10 ^ d)
      ++ '.' :: padDigits d (m.natAbs % 10 ^ d)) ++ rest) = _
    obtain ⟨c, cs, hshape⟩ := List.exists_cons_of_ne_nil (natDigits_ne_nil (m.natAbs / 10 ^ d))
    have hcd : c.isDigit = true := by
      apply natDigits_all_digit (m.natAbs / 10 ^ d)
      rw [hshape]
      exact List.mem_cons_self _ _
    have hcdash : ¬ c = '-' := by
      intro h
      subst h
      exact absurd hcd (by decide)
    rw [hshape, List.cons_append, List.cons_append, parseNum_no_dash c _ hcdash,
      ← List.cons_append, ← List.cons_append, ← hshape]
    rw [List.append_assoc, List.cons_append]
    rw [parseNumCore_float _ _ _ _ _ hd hmod hrest]
    rw [hk]
    have ha : applyNeg false m.natAbs = m := by
      show (m.natAbs : Int) = m
      omega
    rw [ha]

/-! ## Lemmas about string escaping -/

/-- `digitChar` of a value below 16 is a hex digit of that value. -/
theorem hex_digitChar (a : Nat) (h : a < 16) :
    isHex (Nat.digitChar a) = true ∧ hexVal (Nat.digitChar a) = a := by
  interval_cases a <;> exact ⟨rfl, rfl⟩

/-- A two-character escape is decoded back to its character. -/
theorem parseStrBody_twochar (e c2 : Char) (tail : List Char)
    (he : unescChar e = some c2) (hu : ¬ e = 'u') :
    parseStrBody ([backslashC, e] ++ tail) =
      (match parseStrBody tail with
       | some (cs2, rest2) => some (c2 :: cs2, rest2)
       | none => none) := by
  show parseStrBody (backslashC :: e :: tail) = _
  conv_lhs => unfold parseStrBody
  rw [if_neg (by decide), if_pos rfl]
  split
  · rename_i h1 h2 h3 h4 r2 heq
    injection heq with hc _
    exact absurd hc hu
  · rename_i e2 r2 heq
    injection heq with hc htl
    subst hc
    subst htl
    rw [he]
  · rename_i heq
    simp at heq

/-- A `\u00XX` escape is decoded back to the control character. -/
theorem parseStrBody_uescape (a b : Nat) (ha : a < 16) (hb : b < 16) (tail : List Char) :
    parseStrBody ([backslashC, 'u', '0', '0', Nat.digitChar a, Nat.digitChar b] ++ tail) =
      (match parseStrBody tail with
       | some (cs2, rest2) => some (Char.ofNat (a * 16 + b) :: cs2, rest2)
       | none => none) := by
  obtain ⟨hha, hva⟩ := hex_digitChar a ha
  obtain ⟨hhb, hvb⟩ := hex_digitChar b hb
  show parseStrBody (backslashC :: 'u' :: '0' :: '0' ::
    Nat.digitChar a :: Nat.digitChar b :: tail) = _
  conv_lhs => unfold parseStrBody
  rw [if_neg (by decide), if_pos rfl]
  show (if isHex '0' && isHex '0' && isHex (Nat.digitChar a) && isHex (Nat.digitChar b) then
      match parseStrBody tail with
      | some (cs2, rest2) =>
        some (Char.ofNat (((hexVal '0' * 16 + hexVal '0') * 16
          + hexVal (Nat.digitChar a)) * 16 + hexVal (Nat.digitChar b)) :: cs2, rest2)
      | none => none
    else none) = _
  simp only [hha, hhb, hva, hvb]
  rw [if_pos (by decide)]
  simp only [show hexVal '0' = 0 from rfl]
  have hv : ((0 * 16 + 0) * 16 + a) * 16 + b = a * 16 + b := by ring
  simp only [hv]

/-- `parseStrBody` inverts the escaping of a string body, consuming the
closing quote. -/
theorem parseStrBody_esc (cs : List Char) : ∀ rest : List Char,
    parseStrBody (escList cs ++ quoteC :: rest) = some (cs, rest) := by
  induction cs with
  | nil =>
    intro rest
    show parseStrBody (quoteC :: rest) = _
    unfold parseStrBody
    rw [if_pos rfl]
  | cons c cs ih =>
    intro rest
    show parseStrBody ((escChar c ++ escList cs) ++ quoteC :: rest) = _
    rw [List.append_assoc]
    unfold escChar
    by_cases h1 : c = backslashC
    · rw [if_pos h1]
      rw [parseStrBody_twochar backslashC backslashC _ rfl (by decide), ih rest]
      rw [h1]
    · rw [if_neg h1]
      by_cases h2 : c = quoteC
      · rw [if_pos h2]
        rw [parseStrBody_twochar quoteC quoteC _ rfl (by decide), ih rest]
        rw [h2]
      · rw [if_neg h2]
        by_cases h3 : c = Char.ofNat 8
        · rw [if_pos h3]
          rw [parseStrBody_twochar 'b' (Char.ofNat 8) _ rfl (by decide), ih rest]
          rw [h3]
        · rw [if_neg h3]
          by_cases h4 : c = Char.ofNat 12
          · rw [if_pos h4]
            rw [parseStrBody_twochar 'f' (Char.ofNat 12) _ rfl (by decide), ih rest]
            rw [h4]
          · rw [if_neg h4]
            by_cases h5 : c = '\n'
            · rw [if_pos h5]
              rw [parseStrBody_twochar 'n' '\n' _ rfl (by decide), ih rest]
              rw [h5]
            · rw [if_neg h5]
              by_cases h6 : c = '\r'
              · rw [if_pos h6]
                rw [parseStrBody_twochar 'r' '\r' _ rfl (by decide), ih rest]
                rw [h6]
              · rw [if_neg h6]
                by_cases h7 : c = '\t'
                · rw [if_pos h7]
                  rw [parseStrBody_twochar 't' '\t' _ rfl (by decide), ih rest]
                  rw [h7]
                · rw [if_neg h7]
                  by_cases h8 : c.toNat < 32
                  · rw [if_pos h8]
                    rw [parseStrBody_uescape (c.toNat / 16) (c.toNat % 16)
                      (by omega) (by omega), ih rest]
                    have hval : c.toNat / 16 * 16 + c.toNat % 16 = c.toNat := by
                      rw [Nat.mul_comm]
                      exact Nat.div_add_mod _ _
                    rw [hval, Char.ofNat_toNat]
                  · rw [if_neg h8]
                    show parseStrBody (c :: (escList cs ++ quoteC :: rest)) = _
                    unfold parseStrBody
                    rw [if_neg h2, if_neg h1, ih rest]

/-! ## Lemmas about the value parser -/

/-- Every value's nesting measure is positive. -/
theorem sizeV_pos (j : PyVal) : 1 ≤ sizeV j := by
  cases j <;> simp [sizeV]

/-- Every item list's nesting measure is positive. -/
theorem sizeI_pos (xs : PyItems) : 1 ≤ sizeI xs := by
  cases xs <;> simp [sizeI]

/-- Every field list's nesting measure is positive. -/
theorem sizeF_pos (fs : PyFields) : 1 ≤ sizeF fs := by
  cases fs <;> simp [sizeF]

/-- A digit character is none of the parser's dispatch characters. -/
theorem digit_ne_special (c : Char) (h : c.isDigit = true) :
    ¬ c = quoteC ∧ ¬ c = '[' ∧ ¬ c = lbraceC ∧ ¬ c = 't' ∧ ¬ c = 'f' ∧ ¬ c = 'n' ∧
    ¬ c = ']' ∧ ¬ c = rbraceC := by
  refine ⟨?_, ?_, ?_, ?_, ?_, ?_, ?_, ?_⟩ <;>
    · intro hc
      subst hc
      exact absurd h (by decide)

/-- A number head (sign or digit) is none of the dispatch characters. -/
theorem numHead_facts (c : Char) (h : c = '-' ∨ c.isDigit = true) :
    ¬ c = quoteC ∧ ¬ c = '[' ∧ ¬ c = lbraceC ∧ ¬ c = 't' ∧ ¬ c = 'f' ∧ ¬ c = 'n' := by
  cases h with
  | inl h => subst h; exact ⟨by decide, by decide, by decide, by decide, by decide, by decide⟩
  | inr h =>
    obtain ⟨a, b, c2, d, e, f, -, -⟩ := digit_ne_special c h
    exact ⟨a, b, c2, d, e, f⟩

/-- The serialized integer starts with a sign or a digit. -/
theorem intDigits_shape (n : Int) :
    ∃ c tl, intDigits n = c :: tl ∧ (c = '-' ∨ c.isDigit = true) := by
  unfold intDigits
  split
  · exact ⟨'-', natDigits n.natAbs, rfl, Or.inl rfl⟩
  · obtain ⟨c, cs, hshape⟩ := List.exists_cons_of_ne_nil (natDigits_ne_nil n.natAbs)
    refine ⟨c, cs, by rw [hshape]; rfl, Or.inr ?_⟩
    apply natDigits_all_digit n.natAbs
    rw [hshape]
    exact List.mem_cons_self _ _

/-- The serialized float literal starts with a sign or a digit. -/
theorem serFloat_shape (m : Int) (d : Nat) :
    ∃ c tl, serFloat m d = c :: tl ∧ (c = '-' ∨ c.isDigit = true) := by
  unfold serFloat
  split
  · exact ⟨'-', _, rfl, Or.inl rfl⟩
  · obtain ⟨c, cs, hshape⟩ :=
      List.exists_cons_of_ne_nil (natDigits_ne_nil (m.natAbs / 10 ^ d))
    refine ⟨c, cs ++ '.' :: padDigits d (m.natAbs % 10 ^ d), by rw [hshape]; rfl, Or.inr ?_⟩
    apply natDigits_all_digit (m.natAbs / 10 ^ d)
    rw [hshape]
    exact List.mem_cons_self _ _

/-- Every serialization is non-empty and starts with a character that
closes neither an array nor an object. -/
theorem serVal_head (j : PyVal) :
    ∃ c tl, serVal j = c :: tl ∧ ¬ c = ']' ∧ ¬ c = rbraceC := by
  cases j with
  | null => exact ⟨'n', _, rfl, by decide, by decide⟩
  | boolean b => cases b
                 · exact ⟨'f', _, rfl, by decide, by decide⟩
                 · exact ⟨'t', _, rfl, by decide, by decide⟩
  | int n =>
    obtain ⟨c, tl, hshape, hc⟩ := intDigits_shape n
    refine ⟨c, tl, hshape, ?_, ?_⟩ <;>
      · cases hc with
        | inl h => subst h; decide
        | inr h =>
          obtain ⟨-, -, -, -, -, -, h7, h8⟩ := digit_ne_special c h
          first | exact h7 | exact h8
  | float m d =>
    obtain ⟨c, tl, hshape, hc⟩ := serFloat_shape m d
    refine ⟨c, tl, hshape, ?_, ?_⟩ <;>
      · cases hc with
        | inl h => subst h; decide
        | inr h =>
          obtain ⟨-, -, -, -, -, -, h7, h8⟩ := digit_ne_special c h
          first | exact h7 | exact h8
  | str s => exact ⟨quoteC, _, rfl, by decide, by decide⟩
  | arr xs => exact ⟨'[', _, rfl, by decide, by decide⟩
  | obj fs => exact ⟨lbraceC, _, rfl, by decide, by decide⟩

/-- `numSafe` holds against any remainder whose head is safe. -/
theorem numSafe_any (v : PyVal) (rest : List Char) (h : headSafe rest = true) :
    numSafe v rest = true := by
  cases v <;> first | exact h | rfl

/-- Unfolding equation of `parseVal` at positive fuel and a cons input. -/
theorem parseVal_cons (f2 : Nat) (c : Char) (r : List Char) :
    parseVal (f2 + 1) (c :: r) =
      (if c = quoteC then
        match parseStrBody r with
        | some (cs, rest) => some (.str (String.mk cs), rest)
        | none => none
      else if c = '[' then
        match r with
        | ']' :: rest => some (.arr .nil, rest)
        | _ =>
          match parseItems f2 r with
          | some (xs, rest) => some (.arr xs, rest)
          | none => none
      else if c = lbraceC then
        match r with
        | [] => none
        | c2 :: rest =>
          if c2 = rbraceC then some (.obj .nil, rest)
          else
            match parseFields f2 r with
            | some (fs, rest2) => some (.obj fs, rest2)
            | none => none
      else if c = 't' then
        match r with
        | 'r' :: 'u' :: 'e' :: rest => some (.boolean true, rest)
        | _ => none
      else if c = 'f' then
        match r with
        | 'a' :: 'l' :: 's' :: 'e' :: rest => some (.boolean false, rest)
        | _ => none
      else if c = 'n' then
        match r with
        | 'u' :: 'l' :: 'l' :: rest => some (.null, rest)
        | _ => none
      else parseNum (c :: r)) := rfl

/-- Unfolding equation of `parseItems` at positive fuel. -/
theorem parseItems_succ (f2 : Nat) (s : List Char) :
    parseItems (f2 + 1) s =
      (match parseVal f2 s with
       | some (v, r) =>
         (match r with
          | ',' :: r2 =>
            match parseItems f2 r2 with
            | some (vs, rest) => some (.cons v vs, rest)
            | none => none
          | ']' :: r2 => some (.cons v .nil, r2)
          | _ => none)
       | none => none) := rfl

/-- Unfolding equation of `parseFields` at positive fuel and a cons
input. -/
theorem parseFields_cons (f2 : Nat) (c : Char) (r : List Char) :
    parseFields (f2 + 1) (c :: r) =
      (if c = quoteC then
        match parseStrBody r with
        | some (ks, r1) =>
          (match r1 with
           | ':' :: r2 =>
             match parseVal f2 r2 with
             | some (v, r3) =>
               (match r3 with
                | ',' :: r4 =>
                  match parseFields f2 r4 with
                  | some (fs, rest) => some (.cons (String.mk ks) v fs, rest)
                  | none => none
                | c4 :: r4 =>
                  if c4 = rbraceC then some (.cons (String.mk ks) v .nil, r4)
                  else none
                | [] => none)
             | none => none
           | _ => none)
        | none => none
      else none) := rfl

/-- The character dispatch of `parseVal` sends a number head to
`parseNum`. -/
theorem parseVal_dispatch_num (f2 : Nat) (c : Char) (l : List Char)
    (hq : ¬ c = quoteC) (hlb : ¬ c = '[') (hbr : ¬ c = lbraceC)
    (ht : ¬ c = 't') (hf : ¬ c = 'f') (hn : ¬ c = 'n') :
    parseVal (f2 + 1) (c :: l) = parseNum (c :: l) := by
  rw [parseVal_cons]
  rw [if_neg hq, if_neg hlb, if_neg hbr, if_neg ht, if_neg hf, if_neg hn]

mutual

/-- The value parser reads back exactly what the serializer wrote, for any
well-formed value and any remainder that cannot extend a number token. -/
theorem parseVal_ser (j : PyVal) (f : Nat) (rest : List Char)
    (hs : sizeV j ≤ f) (hw : PyVal.wf j = true) (hn : numSafe j rest = true) :
    parseVal f (serVal j ++ rest) = some (j, rest) := by
  cases f with
  | zero =>
    have := sizeV_pos j
    omega
  | succ f2 =>
    cases j with
    | null => rfl
    | boolean b => cases b <;> rfl
    | int n =>
      obtain ⟨c, tl, hshape, hcd⟩ := intDigits_shape n
      obtain ⟨g1, g2, g3, g4, g5, g6⟩ := numHead_facts c hcd
      show parseVal (f2 + 1) (intDigits n ++ rest) = _
      rw [hshape, List.cons_append, parseVal_dispatch_num _ _ _ g1 g2 g3 g4 g5 g6,
        ← List.cons_append, ← hshape]
      exact parseNum_intDigits n rest hn
    | float m d =>
      obtain ⟨c, tl, hshape, hcd⟩ := serFloat_shape m d
      obtain ⟨g1, g2, g3, g4, g5, g6⟩ := numHead_facts c hcd
      show parseVal (f2 + 1) (serFloat m d ++ rest) = _
      rw [hshape, List.cons_append, parseVal_dispatch_num _ _ _ g1 g2 g3 g4 g5 g6,
        ← List.cons_append, ← hshape]
      exact parseNum_serFloat m d rest (of_decide_eq_true hw) hn
    | str s =>
      show parseVal (f2 + 1) (quoteC :: ((escList s.data ++ [quoteC]) ++ rest)) = _
      rw [parseVal_cons, if_pos rfl, List.append_assoc, List.singleton_append,
        parseStrBody_esc]
    | arr xs =>
      cases xs with
      | nil => rfl
      | cons v tl =>
        show parseVal (f2 + 1) ('[' :: ((serItems (.cons v tl) ++ [']']) ++ rest)) = _
        rw [parseVal_cons, if_neg (by decide), if_pos rfl,
          List.append_assoc, List.singleton_append]
        obtain ⟨c, ctl, hserv, hne1, hne2⟩ := serVal_head v
        obtain ⟨l2, hl2⟩ : ∃ l2, serItems (.cons v tl) = serVal v ++ l2 := by
          cases tl with
          | nil => exact ⟨[], (List.append_nil _).symm⟩
          | cons w tl2 => exact ⟨',' :: serItems (.cons w tl2), rfl⟩
        have hshape2 : serItems (.cons v tl) ++ ']' :: rest
            = c :: (ctl ++ l2 ++ ']' :: rest) := by
          rw [hl2, hserv]
          simp [List.cons_append, List.append_assoc]
        rw [hshape2]
        split
        · rename_i rest2 heq
          injection heq with hch _
          exact absurd hch hne1
        · rw [← hshape2]
          have hsi : sizeI (.cons v tl) ≤ f2 := by
            have h2 : sizeV (.arr (.cons v tl)) = 1 + sizeI (.cons v tl) := rfl
            omega
          rw [parseItems_ser (.cons v tl) (by simp) f2 rest hsi hw]
    | obj fs =>
      cases fs with
      | nil => rfl
      | cons k v tl =>
        show parseVal (f2 + 1) (lbraceC :: ((serFields (.cons k v tl) ++ [rbraceC]) ++ rest)) = _
        rw [parseVal_cons, if_neg (by decide), if_neg (by decide), if_pos rfl,
          List.append_assoc, List.singleton_append]
        obtain ⟨X, hX⟩ : ∃ X, serFields (.cons k v tl) = quoteC :: X := by
          cases tl with
          | nil => exact ⟨(escList k.data ++ [quoteC]) ++ (':' :: serVal v), rfl⟩
          | cons k2 v2 tl2 =>
            exact ⟨((escList k.data ++ [quoteC]) ++ ':' :: serVal v)
              ++ ',' :: serFields (.cons k2 v2 tl2), rfl⟩
        have hshape2 : serFields (.cons k v tl) ++ rbraceC :: rest
            = quoteC :: (X ++ rbraceC :: rest) := by
          rw [hX]
          rfl
        rw [hshape2]
        show (if quoteC = rbraceC then some (PyVal.obj PyFields.nil, X ++ rbraceC :: rest)
          else
            match parseFields f2 (quoteC :: (X ++ rbraceC :: rest)) with
            | some (fs2, rest2) => some (PyVal.obj fs2, rest2)
            | none => none) = _
        rw [if_neg (by decide), ← hshape2]
        have hsf : sizeF (.cons k v tl) ≤ f2 := by
          have h2 : sizeV (.obj (.cons k v tl)) = 1 + sizeF (.cons k v tl) := rfl
          omega
        rw [parseFields_ser (.cons k v tl) (by simp) f2 rest hsf hw]

/-- The item parser reads back a non-empty serialized item list up to and
including the closing bracket. -/
theorem parseItems_ser (xs : PyItems) (hne : xs ≠ .nil) (f : Nat) (rest : List Char)
    (hs : sizeI xs ≤ f) (hw : PyItems.wf xs = true) :
    parseItems f (serItems xs ++ ']' :: rest) = some (xs, rest) := by
  cases xs with
  | nil => exact absurd rfl hne
  | cons v tl =>
    cases f with
    | zero =>
      have := sizeI_pos (.cons v tl)
      omega
    | succ f2 =>
      have hmax1 : sizeV v ≤ max (sizeV v) (sizeI tl) := le_max_left _ _
      have hmax2 : sizeI tl ≤ max (sizeV v) (sizeI tl) := le_max_right _ _
      have hsize : sizeI (.cons v tl) = 1 + max (sizeV v) (sizeI tl) := rfl
      have hwp : (PyVal.wf v && PyItems.wf tl) = true := hw
      have hwv : PyVal.wf v = true := by
        have h := hwp
        simp only [Bool.and_eq_true] at h
        exact h.1
      have hwt : PyItems.wf tl = true := by
        have h := hwp
        simp only [Bool.and_eq_true] at h
        exact h.2
      rw [parseItems_succ]
      cases tl with
      | nil =>
        have hser : serItems (.cons v .nil) = serVal v := rfl
        rw [hser, parseVal_ser v f2 (']' :: rest) (by omega) hwv
          (numSafe_any v (']' :: rest) rfl)]
        rfl
      | cons w tl2 =>
        have hser : serItems (.cons v (.cons w tl2))
            = serVal v ++ ',' :: serItems (.cons w tl2) := rfl
        rw [hser, List.append_assoc, List.cons_append,
          parseVal_ser v f2 (',' :: (serItems (.cons w tl2) ++ ']' :: rest)) (by omega) hwv
          (numSafe_any v (',' :: (serItems (.cons w tl2) ++ ']' :: rest)) rfl)]
        show (match parseItems f2 (serItems (PyItems.cons w tl2) ++ ']' :: rest) with
          | some (vs, rest2) => some (PyItems.cons v vs, rest2)
          | none => none) = _
        rw [parseItems_ser (.cons w tl2) (by simp) f2 rest (by omega) hwt]

/-- The field parser reads back a non-empty serialized binding list up to
and including the closing brace. -/
theorem parseFields_ser (fs : PyFields) (hne : fs ≠ .nil) (f : Nat) (rest : List Char)
    (hs : sizeF fs ≤ f) (hw : PyFields.wf fs = true) :
    parseFields f (serFields fs ++ rbraceC :: rest) = some (fs, rest) := by
  cases fs with
  | nil => exact absurd rfl hne
  | cons k v tl =>
    cases f with
    | zero =>
      have := sizeF_pos (.cons k v tl)
      omega
    | succ f2 =>
      have hmax1 : sizeV v ≤ max (sizeV v) (sizeF tl) := le_max_left _ _
      have hmax2 : sizeF tl ≤ max (sizeV v) (sizeF tl) := le_max_right _ _
      have hsize : sizeF (.cons k v tl) = 1 + max (sizeV v) (sizeF tl) := rfl
      have hwp : (PyVal.wf v && PyFields.wf tl) = true := hw
      have hwv : PyVal.wf v = true := by
        have h := hwp
        simp only [Bool.and_eq_true] at h
        exact h.1
      have hwt : PyFields.wf tl = true := by
        have h := hwp
        simp only [Bool.and_eq_true] at h
        exact h.2
      cases tl with
      | nil =>
        have hser : serFields (.cons k v .nil) ++ rbraceC :: rest
            = quoteC :: ((escList k.data ++ [quoteC]) ++ (':' :: (serVal v ++ rbraceC :: rest))) := by
          show (serStr k ++ ':' :: serVal v) ++ rbraceC :: rest = _
          have hq : serStr k = quoteC :: (escList k.data ++ [quoteC]) := rfl
          rw [hq]
          simp [List.cons_append, List.append_assoc]
        rw [hser, parseFields_cons, if_pos rfl, List.append_assoc, List.singleton_append,
          parseStrBody_esc]
        show (match parseVal f2 (serVal v ++ rbraceC :: rest) with
          | some (v2, r3) =>
            (match r3 with
             | ',' :: r4 =>
               match parseFields f2 r4 with
               | some (fs2, rest2) => some (PyFields.cons (String.mk k.data) v2 fs2, rest2)
               | none => none
             | c4 :: r4 =>
               if c4 = rbraceC then some (PyFields.cons (String.mk k.data) v2 PyFields.nil, r4)
               else none
             | [] => none)
          | none => none) = _
        rw [parseVal_ser v f2 (rbraceC :: rest) (by omega) hwv
          (numSafe_any v (rbraceC :: rest) rfl)]
        rfl
      | cons k2 v2 tl2 =>
        have hser : serFields (.cons k v (.cons k2 v2 tl2)) ++ rbraceC :: rest
            = quoteC :: ((escList k.data ++ [quoteC])
              ++ (':' :: (serVal v ++ ',' :: (serFields (.cons k2 v2 tl2) ++ rbraceC :: rest)))) := by
          have hd : serFields (.cons k v (.cons k2 v2 tl2))
              = serStr k ++ ':' :: serVal v ++ ',' :: serFields (.cons k2 v2 tl2) := rfl
          have hq : serStr k = quoteC :: (escList k.data ++ [quoteC]) := rfl
          rw [hd, hq]
          simp [List.cons_append, List.append_assoc]
        rw [hser, parseFields_cons, if_pos rfl, List.append_assoc, List.singleton_append,
          parseStrBody_esc]
        show (match parseVal f2 (serVal v ++ ',' :: (serFields (PyFields.cons k2 v2 tl2) ++ rbraceC :: rest)) with
          | some (v3, r3) =>
            (match r3 with
             | ',' :: r4 =>
               match parseFields f2 r4 with
               | some (fs2, rest2) => some (PyFields.cons (String.mk k.data) v3 fs2, rest2)
               | none => none
             | c4 :: r4 =>
               if c4 = rbraceC then some (PyFields.cons (String.mk k.data) v3 PyFields.nil, r4)
               else none
             | [] => none)
          | none => none) = _
        rw [parseVal_ser v f2 (',' :: (serFields (.cons k2 v2 tl2) ++ rbraceC :: rest)) (by omega)
          hwv (numSafe_any v (',' :: (serFields (.cons k2 v2 tl2) ++ rbraceC :: rest)) rfl)]
        show (match parseFields f2 (serFields (PyFields.cons k2 v2 tl2) ++ rbraceC :: rest) with
          | some (fs2, rest2) => some (PyFields.cons (String.mk k.data) v fs2, rest2)
          | none => none) = _
        rw [parseFields_ser (.cons k2 v2 tl2) (by simp) f2 rest (by omega) hwt]

end

mutual

/-- The nesting measure of a value never exceeds the length of its
serialization. -/
theorem sizeV_le_len (j : PyVal) : sizeV j ≤ (serVal j).length := by
  cases j with
  | null => decide
  | boolean b => cases b <;> decide
  | int n =>
    obtain ⟨c, tl, hshape, hcd⟩ := intDigits_shape n
    show 1 ≤ (intDigits n).length
    rw [hshape]
    simp
  | float m d =>
    obtain ⟨c, tl, hshape, hcd⟩ := serFloat_shape m d
    show 1 ≤ (serFloat m d).length
    rw [hshape]
    simp
  | str s =>
    show 1 ≤ (serStr s).length
    have hq : serStr s = quoteC :: (escList s.data ++ [quoteC]) := rfl
    rw [hq]
    simp
  | arr xs =>
    have h := sizeI_le_len xs
    show 1 + sizeI xs ≤ ('[' :: (serItems xs ++ [']'])).length
    simp only [List.length_cons, List.length_append, List.length_singleton]
    omega
  | obj fs =>
    have h := sizeF_le_len fs
    show 1 + sizeF fs ≤ (lbraceC :: (serFields fs ++ [rbraceC])).length
    simp only [List.length_cons, List.length_append, List.length_singleton]
    omega

/-- The nesting measure of an item list never exceeds the length of its
serialization plus one. -/
theorem sizeI_le_len (xs : PyItems) : sizeI xs ≤ (serItems xs).length + 1 := by
  cases xs with
  | nil => decide
  | cons v tl =>
    have hv := sizeV_le_len v
    have hv1 := sizeV_pos v
    cases tl with
    | nil =>
      show 1 + max (sizeV v) (sizeI PyItems.nil) ≤ (serVal v).length + 1
      have h1 : sizeI PyItems.nil = 1 := rfl
      omega
    | cons w tl2 =>
      have ht := sizeI_le_len (.cons w tl2)
      show 1 + max (sizeV v) (sizeI (PyItems.cons w tl2))
        ≤ (serVal v ++ ',' :: serItems (PyItems.cons w tl2)).length + 1
      simp only [List.length_append, List.length_cons]
      omega

/-- The nesting measure of a binding list never exceeds the length of its
serialization plus one. -/
theorem sizeF_le_len (fs : PyFields) : sizeF fs ≤ (serFields fs).length + 1 := by
  cases fs with
  | nil => decide
  | cons k v tl =>
    have hv := sizeV_le_len v
    have hv1 := sizeV_pos v
    cases tl with
    | nil =>
      show 1 + max (sizeV v) (sizeF PyFields.nil)
        ≤ (serStr k ++ ':' :: serVal v).length + 1
      have h1 : sizeF PyFields.nil = 1 := rfl
      simp only [List.length_append, List.length_cons]
      omega
    | cons k2 v2 tl2 =>
      have ht := sizeF_le_len (.cons k2 v2 tl2)
      show 1 + max (sizeV v) (sizeF (PyFields.cons k2 v2 tl2))
        ≤ (serStr k ++ ':' :: serVal v ++ ',' :: serFields (PyFields.cons k2 v2 tl2)).length + 1
      simp only [List.length_append, List.length_cons]
      omega

end

/-- With fuel one past the length of the serialized text, the parser reads
back a well-formed value exactly, consuming the whole input. -/
theorem parseVal_serVal_full (j : PyVal) (hw : PyVal.wf j = true)
    (hn : numSafe j [] = true) :
    parseVal ((serVal j).length + 1) (serVal j) = some (j, []) := by
  have h := parseVal_ser j ((serVal j).length + 1) []
    (by have := sizeV_le_len j; omega) hw hn
  rw [List.append_nil] at h
  exact h

/-- Stripping a serialized object envelope followed by the trailing newline
recovers exactly the serialized envelope. -/
theorem pyStrip_serObj (X : List Char) :
    pyStrip ((lbraceC :: (X ++ [rbraceC])) ++ ['\n']) = lbraceC :: (X ++ [rbraceC]) := by
  have h1 : isPySpace lbraceC = false := by decide
  have h2 : isPySpace rbraceC = false := by decide
  have h3 : isPySpace '\n' = true := by decide
  simp [pyStrip, List.dropWhile_cons, h1, h2, h3, List.reverse_append]

/-- `decode_message` inverts `encode_message` on any well-formed object
value (the shape every envelope has). -/
theorem decode_encode (msg : PyVal) (fs : PyFields) (hmsg : msg = PyVal.obj fs)
    (hw : PyVal.wf msg = true) :
    decode_message (encode_message msg) = Except.ok msg := by
  subst hmsg
  have hser : serVal (PyVal.obj fs) = lbraceC :: (serFields fs ++ [rbraceC]) := rfl
  have hstrip : pyStrip (serVal (PyVal.obj fs) ++ ['\n']) = serVal (PyVal.obj fs) := by
    rw [hser]
    exact pyStrip_serObj (serFields fs)
  have hne : ¬ serVal (PyVal.obj fs) = [] := by
    rw [hser]
    simp
  have hfull := parseVal_serVal_full (PyVal.obj fs) hw rfl
  show (if pyStrip (serVal (PyVal.obj fs) ++ ['\n']) = []
      then Except.error (PyExn.valueError "Message vide")
      else
        match parseVal ((pyStrip (serVal (PyVal.obj fs) ++ ['\n'])).length + 1)
            (pyStrip (serVal (PyVal.obj fs) ++ ['\n'])) with
        | some (j, []) => Except.ok j
        | _ => Except.error (PyExn.valueError "Expecting value"))
    = Except.ok (PyVal.obj fs)
  rw [hstrip, if_neg hne, hfull]

/-- The envelope built by `build_message` is well-formed whenever its
payload and its supplied request id are. -/
theorem wf_buildMessageVal (msg_type : String) (payload : PyVal) (rid : PyVal)
    (uuid now : String) (hp : PyVal.wf payload = true) (hr : PyVal.wf rid = true) :
    PyVal.wf (buildMessageVal msg_type payload rid uuid now) = true := by
  have hid : PyVal.wf (if pyTruthy rid then rid else PyVal.str uuid) = true := by
    split
    · exact hr
    · rfl
  show (PyVal.wf (PyVal.str PROTOCOL_VERSION) &&
      (PyVal.wf (PyVal.str msg_type) &&
        (PyVal.wf (if pyTruthy rid then rid else PyVal.str uuid) &&
          (PyVal.wf (PyVal.str now) && (PyVal.wf payload && true))))) = true
  rw [hid, hp]
  rfl

/-- `build_message`'s envelope is well-formed whenever the payload is. -/
theorem wf_build_message (msg_type : String) (payload : PyVal)
    (request_id : Option String) (uuid now : String)
    (hp : PyVal.wf payload = true) :
    PyVal.wf (build_message msg_type payload request_id uuid now) = true := by
  show PyVal.wf (buildMessageVal msg_type payload
    (match request_id with | some s => PyVal.str s | none => PyVal.null) uuid now) = true
  apply wf_buildMessageVal msg_type payload _ uuid now hp
  cases request_id with
  | some s => rfl
  | none => rfl

/-- Every envelope built by `build_message` is a JSON object. -/
theorem build_message_obj (msg_type : String) (payload : PyVal)
    (request_id : Option String) (uuid now : String) :
    ∃ fs, build_message msg_type payload request_id uuid now = PyVal.obj fs :=
  ⟨_, rfl⟩

/-- C5: for every envelope built by `build_message` — any type, any
JSON-representable (well-formed) payload, any supplied request id, and the
uuid and timestamp the builder draws — decoding the text produced by
`encode_message` with `decode_message` succeeds and returns the very same
envelope, so in particular its `type`, `request_id` and `payload` fields
are identical to the original's. -/
theorem c5_encode_decode_roundtrip (msg_type : String) (payload : PyVal)
    (request_id : Option String) (uuid now : String)
    (hp : PyVal.wf payload = true) :
    decode_message (encode_message (build_message msg_type payload request_id uuid now))
      = Except.ok (build_message msg_type payload request_id uuid now) := by
  obtain ⟨fs, hfs⟩ := build_message_obj msg_type payload request_id uuid now
  exact decode_encode _ fs hfs (wf_build_message msg_type payload request_id uuid now hp)

/-- The round-trip theorem applied to a concrete healthcheck-style
envelope. -/
theorem c5_encode_decode_roundtrip_witness :
    PyVal.wf payloadW = true ∧
    decode_message (encode_message
        (build_message "ingest_response" payloadW (some "rid-1") "uuid-1"
          "2026-02-23T10:00:00"))
      = Except.ok (build_message "ingest_response" payloadW (some "rid-1") "uuid-1"
          "2026-02-23T10:00:00") :=
  ⟨rfl, c5_encode_decode_roundtrip "ingest_response" payloadW (some "rid-1") "uuid-1"
    "2026-02-23T10:00:00" rfl⟩
